import Mathlib

/-!
Verification development for the vision-board server (src/server.js).

The server is embedded shallowly:
* JSON values are the inductive `Json`; numbers are modelled as integers
  (the repository's documents only ever hold integer numbers, and none of
  the verified properties depend on non-integer numerals), strings as
  `List Char`.
* `JSON.stringify(data, null, 2)` is `serVal` / `writeBoard`,
  `JSON.parse` is `parseValue` / `parseJson` (fuel-indexed, the fuel only
  bounds nesting depth resp. iteration count and is always instantiated
  large enough).
* JavaScript truthiness, `typeof`, property access and assignment are
  `jsTruthy`, `jsTypeof`, `getField`, `setField`; `undefined` is `none`
  in `Option Json`.
* The file system is an association list from absolute paths (segment
  lists) to file contents; `path.join` with its `..` normalisation is
  `joinPath`.
-/

set_option maxHeartbeats 1000000

inductive Json : Type where
  | null : Json
  | bool (b : Bool) : Json
  | num (n : Int) : Json
  | str (s : List Char) : Json
  | arr (elems : List Json) : Json
  | obj (fields : List (List Char × Json)) : Json

/-- JavaScript truthiness of a parsed JSON value. -/
def jsTruthy : Json → Bool
  | .null => false
  | .bool b => b
  | .num n => n != 0
  | .str s => !s.isEmpty
  | .arr _ => true
  | .obj _ => true

/-- JavaScript `typeof` for a parsed JSON value; note `typeof null` and
`typeof` of an array are both "object". -/
def jsTypeof : Json → List Char
  | .null => ("object".toList)
  | .bool _ => ("boolean".toList)
  | .num _ => ("number".toList)
  | .str _ => ("string".toList)
  | .arr _ => ("object".toList)
  | .obj _ => ("object".toList)

/-- Truthiness of a possibly-`undefined` value. -/
def jsTruthyU : Option Json → Bool
  | none => false
  | some v => jsTruthy v

/-- `typeof` of a possibly-`undefined` value. -/
def jsTypeofU : Option Json → List Char
  | none => ("undefined".toList)
  | some v => jsTypeof v

/-- `Array.isArray` on a possibly-`undefined` value. -/
def isArrayJ : Option Json → Bool
  | some (.arr _) => true
  | _ => false

/-- Association-list field lookup (JavaScript property read). -/
def lookupField : List (List Char × Json) → List Char → Option Json
  | [], _ => none
  | p :: rest, k => if p.1 = k then some p.2 else lookupField rest k

/-- JavaScript property read `j.k`; `undefined` (`none`) on non-objects. -/
def getField (j : Json) (k : List Char) : Option Json :=
  match j with
  | .obj fields => lookupField fields k
  | _ => none

/-- Property write on a field list: replace in place when the key exists
(JavaScript keeps the original insertion position), append otherwise. -/
def insertField (fields : List (List Char × Json)) (k : List Char) (v : Json) :
    List (List Char × Json) :=
  if fields.any (fun p => p.1 = k) then
    fields.map (fun p => if p.1 = k then (k, v) else p)
  else fields ++ [(k, v)]

/-- JavaScript property assignment `j.k = v`; a no-op on primitives. -/
def setField (j : Json) (k : List Char) (v : Json) : Json :=
  match j with
  | .obj fields => .obj (insertField fields k v)
  | other => other

/-- JavaScript strict equality `x === s` against a string primitive. -/
def jsStrEq (x : Json) (s : List Char) : Bool :=
  match x with
  | .str t => t = s
  | _ => false

/-- JSON whitespace (the four characters `JSON.parse` skips). -/
def isJsonWs (c : Char) : Bool :=
  c = ' ' || c = Char.ofNat 9 || c = Char.ofNat 10 || c = Char.ofNat 13

def dropWs (cs : List Char) : List Char := cs.dropWhile isJsonWs

/-- The whitespace set of `String.prototype.trim` (WhiteSpace and
LineTerminator code points). -/
def isTrimWs (c : Char) : Bool :=
  c.toNat = 9 || c.toNat = 10 || c.toNat = 11 || c.toNat = 12 || c.toNat = 13 ||
  c.toNat = 32 || c.toNat = 160 || c.toNat = 0x1680 ||
  (0x2000 ≤ c.toNat && c.toNat ≤ 0x200a) ||
  c.toNat = 0x2028 || c.toNat = 0x2029 || c.toNat = 0x202f ||
  c.toNat = 0x205f || c.toNat = 0x3000 || c.toNat = 0xfeff

/-- JavaScript `String.prototype.trim`. -/
def jsTrim (cs : List Char) : List Char :=
  ((cs.dropWhile isTrimWs).reverse.dropWhile isTrimWs).reverse

/-- Decimal digit character for `n < 10`. -/
def digitChar (n : Nat) : Char := Char.ofNat (48 + n)

/-- Reversed decimal digits of `n`, fuel-indexed (`fuel ≥ n` suffices). -/
def natToRev : Nat → Nat → List Char
  | 0, _ => []
  | fuel + 1, n => if n = 0 then [] else digitChar (n % 10) :: natToRev fuel (n / 10)

/-- Decimal digit string of a natural number, as JavaScript prints it. -/
def natDigits (n : Nat) : List Char :=
  if n = 0 then ['0'] else (natToRev (n + 1) n).reverse

/-- Decimal numeral of an integer, as JavaScript prints it. -/
def serNum (n : Int) : List Char :=
  if n < 0 then '-' :: natDigits n.natAbs else natDigits n.natAbs

/-- Value of a decimal digit string, accumulator style. -/
def digitsToNat (acc : Nat) : List Char → Nat
  | [] => acc
  | c :: cs => digitsToNat (acc * 10 + (c.toNat - 48)) cs

/-- Lower-case hexadecimal digit character for `n < 16`. -/
def hexDigitChar (n : Nat) : Char :=
  if n < 10 then Char.ofNat (48 + n) else Char.ofNat (87 + n)

/-- Value of a hexadecimal digit character, if any. -/
def hexVal (c : Char) : Option Nat :=
  if '0' ≤ c ∧ c ≤ '9' then some (c.toNat - 48)
  else if 'a' ≤ c ∧ c ≤ 'f' then some (c.toNat - 87)
  else if 'A' ≤ c ∧ c ≤ 'F' then some (c.toNat - 55)
  else none

/-- How `JSON.stringify` escapes one string character. -/
def escChar (c : Char) : List Char :=
  if c = '"' then ['\\', '"']
  else if c = '\\' then ['\\', '\\']
  else if c = Char.ofNat 8 then ['\\', 'b']
  else if c = Char.ofNat 9 then ['\\', 't']
  else if c = Char.ofNat 10 then ['\\', 'n']
  else if c = Char.ofNat 12 then ['\\', 'f']
  else if c = Char.ofNat 13 then ['\\', 'r']
  else if c.toNat < 32 then
    ['\\', 'u', '0', '0', hexDigitChar (c.toNat / 16), hexDigitChar (c.toNat % 16)]
  else [c]

def escList : List Char → List Char
  | [] => []
  | c :: cs => escChar c ++ escList cs

/-- A JSON string literal as `JSON.stringify` prints it. -/
def strLit (s : List Char) : List Char := '"' :: escList s ++ ['"']

/-- Indentation produced by `JSON.stringify(_, null, 2)` at nesting level `k`. -/
def indent (k : Nat) : List Char := List.replicate (2 * k) ' '

/-- Separator-interleaved concatenation. -/
def sepBy (sep : List Char) : List (List Char) → List Char
  | [] => []
  | [x] => x
  | x :: xs => x ++ sep ++ sepBy sep xs

def commaNl : List Char := [',', Char.ofNat 10]

/-- `JSON.stringify(v, null, 2)` at nesting level `k`.  The fuel only
bounds nesting depth; `sizeOf v` is always enough. -/
def serVal : Nat → Nat → Json → List Char
  | 0, _, _ => []
  | fuel + 1, k, j =>
    match j with
    | .null => ("null".toList)
    | .bool true => ("true".toList)
    | .bool false => ("false".toList)
    | .num n => serNum n
    | .str s => strLit s
    | .arr [] => ("[]".toList)
    | .arr xs =>
        '[' :: Char.ofNat 10 ::
          sepBy commaNl (xs.map (fun x => indent (k + 1) ++ serVal fuel (k + 1) x)) ++
          Char.ofNat 10 :: indent k ++ [']']
    | .obj [] => ("\x7b\x7d".toList)
    | .obj fs =>
        '{' :: Char.ofNat 10 ::
          sepBy commaNl (fs.map (fun p =>
            indent (k + 1) ++ strLit p.1 ++ ':' :: ' ' :: serVal fuel (k + 1) p.2)) ++
          Char.ofNat 10 :: indent k ++ ['}']

/-- Decode one backslash escape (the non-`\u` ones `JSON.parse` accepts). -/
def escDecode (c : Char) : Option Char :=
  if c = '"' then some '"'
  else if c = '\\' then some '\\'
  else if c = '/' then some '/'
  else if c = 'b' then some (Char.ofNat 8)
  else if c = 'f' then some (Char.ofNat 12)
  else if c = 'n' then some (Char.ofNat 10)
  else if c = 'r' then some (Char.ofNat 13)
  else if c = 't' then some (Char.ofNat 9)
  else none

/-- Parse the body of a JSON string literal (after the opening quote), up
to and including the closing quote.  Unescaped control characters are
rejected, exactly as in `JSON.parse`. -/
def parseStrBody : List Char → Option (List Char × List Char)
  | [] => none
  | c :: rest =>
    if c = '"' then some ([], rest)
    else if c = '\\' then
      match rest with
      | 'u' :: h1 :: h2 :: h3 :: h4 :: rest2 =>
        match hexVal h1, hexVal h2, hexVal h3, hexVal h4 with
        | some a, some b, some c2, some d =>
          (parseStrBody rest2).map
            (fun pr => (Char.ofNat (((a * 16 + b) * 16 + c2) * 16 + d) :: pr.1, pr.2))
        | _, _, _, _ => none
      | e :: rest2 =>
        match escDecode e with
        | some d => (parseStrBody rest2).map (fun pr => (d :: pr.1, pr.2))
        | none => none
      | [] => none
    else if c.toNat < 32 then none
    else (parseStrBody rest).map (fun pr => (c :: pr.1, pr.2))

/-- Parse an unsigned digit run with JSON's no-leading-zero rule. -/
def parseNumCore (cs1 : List Char) : Option (Nat × List Char) :=
  if cs1.takeWhile Char.isDigit = [] then none
  else if (cs1.takeWhile Char.isDigit).head? = some '0' ∧
      (cs1.takeWhile Char.isDigit).length ≠ 1 then none
  else some (digitsToNat 0 (cs1.takeWhile Char.isDigit), cs1.dropWhile Char.isDigit)

/-- Parse a JSON integer numeral (sign and digit run, with JSON's
no-leading-zero rule).  Non-integer numerals are outside the model. -/
def parseNum (cs : List Char) : Option (Int × List Char) :=
  match cs with
  | '-' :: cs1 =>
    (parseNumCore cs1).map (fun pr => (-(pr.1 : Int), pr.2))
  | _ =>
    (parseNumCore cs).map (fun pr => ((pr.1 : Int), pr.2))

/-- Element loop of a JSON array parse.  `pv` parses one value; the
`Nat` fuel bounds the number of elements (the input length plus one is
always enough). -/
def parseElems (pv : List Char → Option (Json × List Char)) :
    Nat → List Char → List Json → Option (List Json × List Char)
  | 0, _, _ => none
  | lf + 1, cs, acc =>
    match pv cs with
    | none => none
    | some (v, cs2) =>
      match dropWs cs2 with
      | ',' :: cs3 => parseElems pv lf (dropWs cs3) (acc ++ [v])
      | ']' :: cs3 => some (acc ++ [v], cs3)
      | _ => none

/-- Member loop of a JSON object parse; duplicate keys overwrite in place
exactly as JavaScript property definition does. -/
def parseMembers (pv : List Char → Option (Json × List Char)) :
    Nat → List Char → List (List Char × Json) →
    Option (List (List Char × Json) × List Char)
  | 0, _, _ => none
  | lf + 1, cs, acc =>
    match cs with
    | '"' :: rest =>
      match parseStrBody rest with
      | none => none
      | some (key, cs2) =>
        match dropWs cs2 with
        | ':' :: cs3 =>
          match pv cs3 with
          | none => none
          | some (v, cs4) =>
            match dropWs cs4 with
            | ',' :: cs5 => parseMembers pv lf (dropWs cs5) (insertField acc key v)
            | '}' :: cs5 => some (insertField acc key v, cs5)
            | _ => none
        | _ => none
    | _ => none

/-- `JSON.parse` value parser.  The fuel bounds nesting depth only; the
input length plus one is always enough. -/
def parseValue : Nat → List Char → Option (Json × List Char)
  | 0, _ => none
  | fuel + 1, cs0 =>
    match dropWs cs0 with
    | [] => none
    | c :: cs =>
      if c = '{' then
        match dropWs cs with
        | '}' :: rest => some (.obj [], rest)
        | cs1 => (parseMembers (parseValue fuel) (cs1.length + 1) cs1 []).map
            (fun pr => (.obj pr.1, pr.2))
      else if c = '[' then
        match dropWs cs with
        | ']' :: rest => some (.arr [], rest)
        | cs1 => (parseElems (parseValue fuel) (cs1.length + 1) cs1 []).map
            (fun pr => (.arr pr.1, pr.2))
      else if c = '"' then
        (parseStrBody cs).map (fun pr => (.str pr.1, pr.2))
      else if c = 't' then
        match cs with
        | 'r' :: 'u' :: 'e' :: rest => some (.bool true, rest)
        | _ => none
      else if c = 'f' then
        match cs with
        | 'a' :: 'l' :: 's' :: 'e' :: rest => some (.bool false, rest)
        | _ => none
      else if c = 'n' then
        match cs with
        | 'u' :: 'l' :: 'l' :: rest => some (.null, rest)
        | _ => none
      else if c = '-' ∨ c.isDigit then
        (parseNum (c :: cs)).map (fun pr => (.num pr.1, pr.2))
      else none

/-- `JSON.parse`: parse one value and require only trailing whitespace. -/
def parseJson (cs : List Char) : Option Json :=
  match parseValue (cs.length + 1) cs with
  | some (v, rest) => if dropWs rest = [] then some v else none
  | none => none


/-! ## File-system and path model

Paths are absolute, represented as their list of segments; the file
system is an association list from paths to file contents. -/

abbrev FsPath := List (List Char)
abbrev Fs := List (FsPath × List Char)

def fsLookup : Fs → FsPath → Option (List Char)
  | [], _ => none
  | e :: rest, p => if e.1 = p then some e.2 else fsLookup rest p

/-- `fs.existsSync`. -/
def fsExists (fs : Fs) (p : FsPath) : Bool := (fsLookup fs p).isSome

/-- `fs.unlinkSync`. -/
def fsErase : Fs → FsPath → Fs
  | [], _ => []
  | e :: rest, p => if e.1 = p then fsErase rest p else e :: fsErase rest p

/-- `fs.writeFileSync`: overwrite or create. -/
def fsWrite : Fs → FsPath → List Char → Fs
  | [], p, c => [(p, c)]
  | e :: rest, p, c => if e.1 = p then (p, c) :: rest else e :: fsWrite rest p c

def splitSegAux (cur : List Char) : List Char → List (List Char)
  | [] => [cur.reverse]
  | c :: rest => if c = '/' then cur.reverse :: splitSegAux [] rest else splitSegAux (c :: cur) rest

/-- Split a relative path string on `/`. -/
def splitSeg (cs : List Char) : List (List Char) := splitSegAux [] cs

/-- One step of POSIX path normalisation over an absolute base. -/
def normStep (acc : FsPath) (seg : List Char) : FsPath :=
  if seg = [] then acc
  else if seg = ['.'] then acc
  else if seg = ['.', '.'] then acc.dropLast
  else acc ++ [seg]

/-- `path.join(base, child)` for an absolute, already-normalised `base`:
concatenate and normalise, resolving `.` and `..` segments. -/
def joinPath (base : FsPath) (child : List Char) : FsPath :=
  (splitSeg child).foldl normStep base

/-- `UPLOAD_DIR = path.join(__dirname, "uploads")`. -/
def uploadDir (base : FsPath) : FsPath := base ++ [("uploads".toList)]

/-- `DATA_FILE = path.join(path.join(__dirname, "data"), "vision-board.txt")`. -/
def dataFile (base : FsPath) : FsPath := base ++ [("data".toList), ("vision-board.txt".toList)]

/-! ## The document store and the four handlers -/

/-- `readBoard` of server.js over the data file's contents (`none` when the
file does not exist).  `JSON.parse` failures are swallowed into `null`,
and a parse result of JSON `null` is indistinguishable from the absent
case, exactly as in JavaScript. -/
def readBoard (file : Option (List Char)) : Json :=
  match file with
  | none => .null
  | some raw =>
    let t := jsTrim raw
    if t = [] then .null
    else
      match parseJson t with
      | some v => v
      | none => .null

/-- A size measure on JSON values, used as serialiser fuel (the fuel only
bounds nesting depth, and `jsize` always dominates the depth). -/
def jsize : Json → Nat
  | .arr [] => 2
  | .arr (x :: xs) => jsize x + jsize (.arr xs) + 1
  | .obj [] => 2
  | .obj ((_, v) :: ps) => jsize v + jsize (.obj ps) + 1
  | _ => 1

/-- `writeBoard` of server.js: `JSON.stringify(data, null, 2)`. -/
def writeBoard (data : Json) : List Char := serVal (jsize data) 0 data

def jstr (s : String) : Json := Json.str s.toList

def jtexts (ss : List String) : Json := Json.arr (ss.map (fun s => Json.str s.toList))

/-- `defaultBoard` of server.js, transcribed field for field. -/
def defaultBoard (now : List Char) : Json :=
  Json.obj [
    (("version".toList), Json.num 1),
    (("updatedAt".toList), Json.str now),
    (("content".toList), Json.obj [
      (("subtitle".toList), jstr ("Click the text to edit. Upload images in Mood & Aesthetic.")),
      (("intentionsTitle".toList), jstr ("Intentions")),
      (("intentionsTag".toList), jstr ("Focus")),
      (("intentionsItems".toList), jtexts [
        ("Choose clarity over chaos."),
        ("Build momentum with small daily wins."),
        ("Be present with people I love."),
        ("Create work I’m proud to share.")]),
      (("quoteMain".toList), jstr ("“Warm heart, clear mind, steady steps.”")),
      (("quoteSub".toList), jstr ("My energy for 2026")),
      (("habitsTitle".toList), jstr ("Habits")),
      (("habitsTag".toList), jstr ("Daily")),
      (("habitsItems".toList), jtexts [
        ("30 minutes deep work before scrolling."),
        ("Move my body (walk, swim, stretch)."),
        ("One meaningful check-in with someone."),
        ("Write 3 lines of gratitude.")]),
      (("moodTitle".toList), jstr ("Mood & Aesthetic")),
      (("moodTag".toList), jstr ("Playful + Warm")),
      (("moodHint".toList), jstr ("No crop: images keep their full height. This panel scrolls.")),
      (("goalsTitle".toList), jstr ("Goals")),
      (("goalsTag".toList), jstr ("Milestones")),
      (("goalsItems".toList), jtexts [
        ("One project shipped that I truly care about."),
        ("Stronger health routine (sleep, movement, meals)."),
        ("More time outdoors + mini trips."),
        ("Save and invest consistently.")]),
      (("peopleTitle".toList), jstr ("People & Places")),
      (("peopleTag".toList), jstr ("Connection")),
      (("peopleItems".toList), jtexts [
        ("Make space for friendships that feel easy."),
        ("Plan 2–3 meaningful catch-ups each month."),
        ("Create a home vibe that feels calm and warm.")]),
      (("footerTip".toList), jstr ("Tip: click text to edit. Mood images show fully (no cropping)."))]),
    (("moodImages".toList), Json.arr [])
  ]

structure HttpOut where
  status : Nat
  body : Json

def okJson : Json := Json.obj [(("ok".toList), Json.bool true)]

def errJson (msg : List Char) : Json :=
  Json.obj [(("ok".toList), Json.bool false), (("error".toList), Json.str msg)]

/-- JavaScript `a || b`. -/
def jsOr (a b : Json) : Json := if jsTruthy a then a else b

/-- `req.body || {}` (`req.body` itself may be `undefined`). -/
def coerceBody (reqBody : Option Json) : Json :=
  match reqBody with
  | none => Json.obj []
  | some v => if jsTruthy v then v else Json.obj []

def readBoardFs (base : FsPath) (fs : Fs) : Json := readBoard (fsLookup fs (dataFile base))

/-- Handler of `GET /api/board`. -/
def getBoard (base : FsPath) (fs : Fs) (now : List Char) : HttpOut :=
  ⟨200, jsOr (readBoardFs base fs) (defaultBoard now)⟩

/-- Build an object literal whose fields may be `undefined`;
`JSON.stringify` omits `undefined`-valued fields, and property reads
cannot tell a missing field from an `undefined` one, so dropping them at
construction is faithful. -/
def mkDocFields (l : List (List Char × Option Json)) : Json :=
  Json.obj (l.filterMap (fun p => p.2.map (fun v => (p.1, v))))

/-- The `next` document built by `POST /api/board`, transcribed from the
handler: `body.content && typeof body.content === "object"` keeps
`body.content`, else falls back to `current.content`;
`Array.isArray(body.moodImages)` keeps `body.moodImages`, else falls back
to `current.moodImages`. -/
def postNext (body current : Json) (now : List Char) : Json :=
  mkDocFields [
    (("version".toList), some (Json.num 1)),
    (("updatedAt".toList), some (Json.str now)),
    (("content".toList),
      if jsTruthyU (getField body ("content".toList)) &&
          jsTypeofU (getField body ("content".toList)) = ("object".toList) then
        getField body ("content".toList)
      else getField current ("content".toList)),
    (("moodImages".toList),
      if isArrayJ (getField body ("moodImages".toList)) then
        getField body ("moodImages".toList)
      else getField current ("moodImages".toList))
  ]

/-- Handler of `POST /api/board`. -/
def postBoard (base : FsPath) (fs : Fs) (reqBody : Option Json) (now : List Char) :
    HttpOut × Fs :=
  let body := coerceBody reqBody
  if jsTypeof body ≠ ("object".toList) then
    (⟨400, errJson ("Invalid payload".toList)⟩, fs)
  else
    let current := jsOr (readBoardFs base fs) (defaultBoard now)
    (⟨200, okJson⟩, fsWrite fs (dataFile base) (writeBoard (postNext body current now)))

/-- Handler of `POST /api/delete-mood`.  The guard
`!filename || typeof filename !== "string"` rejects exactly the bodies
whose `filename` field is not a nonempty string, which is what the outer
match plus the emptiness test express. -/
def deleteMood (base : FsPath) (fs : Fs) (reqBody : Option Json) (now : List Char) :
    HttpOut × Fs :=
  let body := coerceBody reqBody
  match getField body ("filename".toList) with
  | some (Json.str fn) =>
    if fn = [] then (⟨400, errJson ("filename required".toList)⟩, fs)
    else
      let full := joinPath (uploadDir base) fn
      let fs1 := if fsExists fs full then fsErase fs full else fs
      let board := readBoard (fsLookup fs1 (dataFile base))
      match jsTruthy board, getField board ("moodImages".toList) with
      | true, some (Json.arr xs) =>
        let b1 := setField board ("moodImages".toList)
          (Json.arr (xs.filter (fun x => !(jsStrEq x fn))))
        let b2 := setField b1 ("updatedAt".toList) (Json.str now)
        (⟨200, okJson⟩, fsWrite fs1 (dataFile base) (writeBoard b2))
      | _, _ => (⟨200, okJson⟩, fs1)
  | _ => (⟨400, errJson ("filename required".toList)⟩, fs)

/-! ## Upload pipeline -/

/-- The clock, standing in for `new Date()`. -/
structure ClockT where
  year : Nat
  month : Nat
  day : Nat
  hour : Nat
  minute : Nat
  second : Nat
  ms : Nat

/-- Left-pad a numeral with zeros to width `w`. -/
def padNum (w n : Nat) : List Char :=
  List.replicate (w - (natDigits n).length) '0' ++ natDigits n

/-- `Date.prototype.toISOString`: `YYYY-MM-DDTHH:mm:ss.sssZ`. -/
def toISOStringL (c : ClockT) : List Char :=
  padNum 4 c.year ++ '-' :: padNum 2 c.month ++ '-' :: padNum 2 c.day ++
  'T' :: padNum 2 c.hour ++ ':' :: padNum 2 c.minute ++ ':' :: padNum 2 c.second ++
  '.' :: padNum 3 c.ms ++ ['Z']

def isoSep (c : Char) : Bool := c = '-' || c = ':' || c = '.' || c = 'T' || c = 'Z'

/-- `toISOString().replace(/[-:.TZ]/g, "").slice(0, 14)`. -/
def tsOf (c : ClockT) : List Char :=
  ((toISOStringL c).filter (fun ch => !(isoSep ch))).take 14

/-- The scanning loop of Node's POSIX `path.extname`, transcribed: the
characters are walked from the end of the path (the list argument is the
reversed path, `i` the index of its head in the original).  `sd` is
`startDot` (index of the last dot seen), `sp` is `startPart`, `en` is
`end` (one past the last non-separator), `ms` is `matchedSlash`, and
`pds` is `preDotState` (0 before anything precedes the last dot, 1 when
a dot does, -1 when a non-dot does); a separator past the basename stops
the walk with `startPart = i + 1`. -/
def extnameGo : List Char → Nat → Option Nat → Nat → Option Nat → Bool → Int →
    Option Nat × Nat × Option Nat × Int
  | [], _, sd, sp, en, _, pds => (sd, sp, en, pds)
  | c :: rest, i, sd, sp, en, ms, pds =>
    if c = '/' then
      if ms then extnameGo rest (i - 1) sd sp en ms pds
      else (sd, i + 1, en, pds)
    else
      let en2 := match en with
        | none => some (i + 1)
        | some e => some e
      if c = '.' then
        match sd with
        | none => extnameGo rest (i - 1) (some i) sp en2 false pds
        | some sd0 => extnameGo rest (i - 1) (some sd0) sp en2 false
            (if pds = 1 then pds else 1)
      else
        match sd with
        | none => extnameGo rest (i - 1) none sp en2 false pds
        | some sd0 => extnameGo rest (i - 1) (some sd0) sp en2 false (-1)

/-- `path.extname` (POSIX), following Node's implementation: the slice
from the last dot of the basename to its end, except that the result is
empty when there is no dot past a separator, when nothing precedes the
last dot in the basename (`extname(".bashrc") = ""`), or when the
basename is exactly `".."`; in particular `extname("..png") = ".png"`. -/
def extnameL (name : List Char) : List Char :=
  match extnameGo name.reverse (name.length - 1) none 0 none true 0 with
  | (sd?, sp, en?, pds) =>
    match sd?, en? with
    | some sd, some e =>
      if pds = 0 ∨ (pds = 1 ∧ sd = e - 1 ∧ sd = sp + 1) then []
      else (name.drop sd).take (e - sd)
    | _, _ => []

def toLowerL (cs : List Char) : List Char := cs.map Char.toLower

/-- `safeExt` of server.js. -/
def safeExt (originalName : List Char) : List Char :=
  let ext := toLowerL (extnameL originalName)
  if ext = (".png".toList) ∨ ext = (".jpg".toList) ∨ ext = (".jpeg".toList) ∨
      ext = (".webp".toList) ∨ ext = (".gif".toList) then ext
  else (".jpg".toList)

/-- `genMoodFilename` of server.js; the clock and the drawn random number
(`Math.floor(1000 + Math.random() * 9000)`) are explicit inputs. -/
def genMoodFilename (originalName : List Char) (c : ClockT) (rand : Nat) : List Char :=
  ("mood_".toList) ++ tsOf c ++ '_' :: natDigits rand ++ safeExt originalName

/-- One file of a multipart upload request, with the nondeterminism
(clock reading, random draw) it is saved under made explicit. -/
structure UploadFile where
  originalname : List Char
  clock : ClockT
  rand : Nat
  bytes : List Char

/-- The multer disk-storage middleware: save every file under its
generated name in the upload directory. -/
def multerSave (base : FsPath) : Fs → List UploadFile → Fs × List (List Char)
  | fs, [] => (fs, [])
  | fs, f :: rest =>
    let name := genMoodFilename f.originalname f.clock f.rand
    let fs1 := fsWrite fs (joinPath (uploadDir base) name) f.bytes
    let next := multerSave base fs1 rest
    (next.1, name :: next.2)

/-- Handler of `POST /api/upload-mood` (after the middleware saved the
files): answer `{ok: true, files: [{filename, url}]}`. -/
def uploadMood (base : FsPath) (fs : Fs) (files : List UploadFile) : HttpOut × Fs :=
  let saved := multerSave base fs files
  (⟨200, Json.obj [(("ok".toList), Json.bool true),
    (("files".toList), Json.arr (saved.2.map (fun n =>
      Json.obj [(("filename".toList), Json.str n),
                (("url".toList), Json.str (("/uploads/".toList) ++ n))])))]⟩,
   saved.1)

/-! ## Validity of board documents (from the specification's data model) -/

def isStrJ : Json → Bool
  | .str _ => true
  | _ => false

def isStrOrStrArr : Json → Bool
  | .str _ => true
  | .arr xs => xs.all isStrJ
  | _ => false

/-- A valid `BoardDocument` in the sense of the specification's data
model: the four fields in their construction order, `content` an object
whose values are strings or arrays of strings (with distinct keys, as any
JavaScript object has), `moodImages` an array of strings. -/
def validDoc : Json → Bool
  | .obj [(k1, Json.num _), (k2, Json.str _), (k3, Json.obj fs), (k4, Json.arr imgs)] =>
    k1 = ("version".toList) && k2 = ("updatedAt".toList) &&
    k3 = ("content".toList) && k4 = ("moodImages".toList) &&
    fs.all (fun p => isStrOrStrArr p.2) && imgs.all isStrJ &&
    decide ((fs.map Prod.fst).Nodup)
  | _ => false


/-- The serialised member chain of a nonempty object at level `k`, from
the first key's opening quote through the closing brace. -/
def membersOut (fsv k : Nat) : List (List Char × Json) → List Char
  | [] => Char.ofNat 10 :: (indent k ++ ['}'])
  | [p] => strLit p.1 ++ (':' :: ' ' :: (serVal fsv (k + 1) p.2 ++
      (Char.ofNat 10 :: (indent k ++ ['}']))))
  | p :: q :: rest => strLit p.1 ++ (':' :: ' ' :: (serVal fsv (k + 1) p.2 ++
      (',' :: Char.ofNat 10 :: (indent (k + 1) ++ membersOut fsv k (q :: rest)))))

/-- The serialised element chain of a nonempty array at level `k`, from
the first element through the closing bracket. -/
def elemsOut (fsv k : Nat) : List Json → List Char
  | [] => Char.ofNat 10 :: (indent k ++ [']'])
  | [x] => serVal fsv (k + 1) x ++ (Char.ofNat 10 :: (indent k ++ [']']))
  | x :: y :: rest => serVal fsv (k + 1) x ++
      (',' :: Char.ofNat 10 :: (indent (k + 1) ++ elemsOut fsv k (y :: rest)))

/-- The `next` document as the specification sentence words it:
`content = body.content` if it **is an object**, else `current.content`
(under the specification's own reading, shared with its description of
the request body, an array is not an object); `moodImages` as in the
code.  Compared against `postNext`, the transcription of the handler. -/
def specPostNext (body current : Json) (now : List Char) : Json :=
  mkDocFields [
    (("version".toList), some (Json.num 1)),
    (("updatedAt".toList), some (Json.str now)),
    (("content".toList),
      match getField body ("content".toList) with
      | some (Json.obj fs) => some (Json.obj fs)
      | _ => getField current ("content".toList)),
    (("moodImages".toList),
      if isArrayJ (getField body ("moodImages".toList)) then
        getField body ("moodImages".toList)
      else getField current ("moodImages".toList))
  ]

/-- Bounds under which a clock reading renders as a well-formed
`toISOString` output. -/
def validClock (c : ClockT) : Bool :=
  c.year ≤ 9999 && c.month ≤ 12 && c.day ≤ 31 && c.hour ≤ 23 &&
  c.minute ≤ 59 && c.second ≤ 59 && c.ms ≤ 999

/-! ## Basic list and character lemmas -/

theorem dropWhile_cons_neg {p : Char → Bool} {x : Char} {xs : List Char} (h : p x = false) :
    List.dropWhile p (x :: xs) = x :: xs := by
  simp [List.dropWhile, h]

theorem dropWhile_head_neg {p : Char → Bool} {ys : List Char}
    (hy : ∀ y, ys.head? = some y → p y = false) : List.dropWhile p ys = ys := by
  cases ys with
  | nil => rfl
  | cons b t => exact dropWhile_cons_neg (hy b rfl)

theorem dropWhile_append_all {p : Char → Bool} {xs : List Char} (ys : List Char)
    (h : ∀ x ∈ xs, p x = true) : List.dropWhile p (xs ++ ys) = List.dropWhile p ys := by
  induction xs with
  | nil => rfl
  | cons a l ih => simp_all [List.dropWhile]

theorem takeWhile_append_all {p : Char → Bool} {xs ys : List Char}
    (h : ∀ x ∈ xs, p x = true) (hy : ∀ y, ys.head? = some y → p y = false) :
    (xs ++ ys).takeWhile p = xs := by
  induction xs with
  | nil =>
    cases ys with
    | nil => rfl
    | cons b t => simp [List.takeWhile, hy b rfl]
  | cons a l ih => simp_all [List.takeWhile]

theorem dropWhile_append_all2 {p : Char → Bool} {xs ys : List Char}
    (h : ∀ x ∈ xs, p x = true) (hy : ∀ y, ys.head? = some y → p y = false) :
    (xs ++ ys).dropWhile p = ys := by
  rw [dropWhile_append_all ys h]
  exact dropWhile_head_neg hy

theorem dropWs_cons {c : Char} {cs : List Char} (h : isJsonWs c = false) :
    dropWs (c :: cs) = c :: cs := dropWhile_cons_neg h

theorem indent_ws {k : Nat} : ∀ x ∈ indent k, isJsonWs x = true := by
  intro x hx
  have := List.eq_of_mem_replicate hx
  subst this
  rfl

theorem dropWs_indent (k : Nat) (cs : List Char) : dropWs (indent k ++ cs) = dropWs cs :=
  dropWhile_append_all cs indent_ws

theorem dropWs_nl (cs : List Char) : dropWs (Char.ofNat 10 :: cs) = dropWs cs := by
  have h : isJsonWs (Char.ofNat 10) = true := by decide
  simp [dropWs, List.dropWhile, h]

theorem dropWs_nl_indent (k : Nat) (cs : List Char) :
    dropWs ((Char.ofNat 10 :: indent k) ++ cs) = dropWs cs := by
  apply dropWhile_append_all
  intro x hx
  rcases List.mem_cons.mp hx with h | h
  · subst h; decide
  · exact indent_ws x h

/-! ## Decimal numeral lemmas -/

theorem digitChar_toNat {d : Nat} (h : d < 10) : (digitChar d).toNat = 48 + d := by
  have : ∀ e, e < 10 → (digitChar e).toNat = 48 + e := by decide
  exact this d h

theorem digitChar_isDigit {d : Nat} (h : d < 10) : (digitChar d).isDigit = true := by
  have : ∀ e, e < 10 → (digitChar e).isDigit = true := by decide
  exact this d h

theorem natToRev_zero : ∀ f, natToRev f 0 = [] := by
  intro f
  cases f <;> simp [natToRev]

theorem natToRev_succ_pos {f n : Nat} (h : n ≠ 0) :
    natToRev (f + 1) n = digitChar (n % 10) :: natToRev f (n / 10) := by
  simp [natToRev, h]

theorem digitsToNat_append : ∀ (xs ys : List Char) (acc : Nat),
    digitsToNat acc (xs ++ ys) = digitsToNat (digitsToNat acc xs) ys := by
  intro xs
  induction xs with
  | nil => intro ys acc; rfl
  | cons a l ih =>
    intro ys acc
    rw [List.cons_append]
    show digitsToNat (acc * 10 + (a.toNat - 48)) (l ++ ys) =
      digitsToNat (digitsToNat (acc * 10 + (a.toNat - 48)) l) ys
    rw [ih]

theorem natToRev_val : ∀ n f acc, n ≤ f →
    digitsToNat acc ((natToRev f n).reverse) =
      acc * 10 ^ (natToRev f n).length + n := by
  intro n
  induction n using Nat.strong_induction_on with
  | _ n ih =>
    intro f acc hf
    by_cases hn : n = 0
    · subst hn
      rw [natToRev_zero]
      show acc = acc * 10 ^ (List.length ([] : List Char)) + 0
      simp
    · have hf1 : 1 ≤ f := by omega
      obtain ⟨f', rfl⟩ : ∃ f', f = f' + 1 := ⟨f - 1, by omega⟩
      rw [natToRev_succ_pos hn]
      have hdiv : n / 10 < n := Nat.div_lt_self (by omega) (by omega)
      have hdf : n / 10 ≤ f' := by omega
      have hmod : n % 10 < 10 := Nat.mod_lt _ (by omega)
      simp only [List.reverse_cons, List.length_cons]
      rw [digitsToNat_append, ih (n / 10) hdiv f' acc hdf]
      have hstep : ∀ A : Nat, digitsToNat A [digitChar (n % 10)] =
          A * 10 + ((digitChar (n % 10)).toNat - 48) := fun A => rfl
      rw [hstep, digitChar_toNat hmod, pow_succ]
      have h48 : 48 + n % 10 - 48 = n % 10 := by omega
      rw [h48]
      have hsplit : n / 10 * 10 + n % 10 = n := by omega
      calc (acc * 10 ^ (natToRev f' (n / 10)).length + n / 10) * 10 + n % 10
          = acc * (10 ^ (natToRev f' (n / 10)).length * 10) +
            (n / 10 * 10 + n % 10) := by ring
        _ = acc * (10 ^ (natToRev f' (n / 10)).length * 10) + n := by rw [hsplit]

theorem natToRev_all_digit : ∀ n f, n ≤ f → ∀ c ∈ natToRev f n, c.isDigit = true := by
  intro n
  induction n using Nat.strong_induction_on with
  | _ n ih =>
    intro f hf c hc
    by_cases hn : n = 0
    · subst hn; rw [natToRev_zero] at hc; cases hc
    · obtain ⟨f', rfl⟩ : ∃ f', f = f' + 1 := ⟨f - 1, by omega⟩
      rw [natToRev_succ_pos hn] at hc
      rcases List.mem_cons.mp hc with h | h
      · subst h; exact digitChar_isDigit (Nat.mod_lt _ (by omega))
      · have hdiv : n / 10 < n := Nat.div_lt_self (by omega) (by omega)
        exact ih (n / 10) hdiv f' (by omega) c h

theorem natToRev_getLast : ∀ n f, n ≤ f → n ≠ 0 →
    ∃ d, d ≠ 0 ∧ d < 10 ∧ (natToRev f n).getLast? = some (digitChar d) := by
  intro n
  induction n using Nat.strong_induction_on with
  | _ n ih =>
    intro f hf hn
    obtain ⟨f', rfl⟩ : ∃ f', f = f' + 1 := ⟨f - 1, by omega⟩
    rw [natToRev_succ_pos hn]
    by_cases hsmall : n < 10
    · have : n / 10 = 0 := Nat.div_eq_of_lt hsmall
      rw [this, natToRev_zero]
      exact ⟨n % 10, by omega, Nat.mod_lt _ (by omega), by
        simp [Nat.mod_eq_of_lt hsmall]⟩
    · have hdiv : n / 10 < n := Nat.div_lt_self (by omega) (by omega)
      have hne : n / 10 ≠ 0 := by
        intro h
        have := Nat.div_add_mod n 10
        omega
      obtain ⟨d, hd0, hd10, hlast⟩ := ih (n / 10) hdiv f' (by omega) hne
      refine ⟨d, hd0, hd10, ?_⟩
      cases hrest : natToRev f' (n / 10) with
      | nil => rw [hrest] at hlast; simp at hlast
      | cons r t =>
        rw [hrest] at hlast
        rw [List.getLast?_cons_cons]
        exact hlast

theorem natDigits_zero : natDigits 0 = ['0'] := rfl

theorem natDigits_pos {n : Nat} (h : n ≠ 0) : natDigits n = (natToRev (n + 1) n).reverse := by
  simp [natDigits, h]

theorem natDigits_val (n : Nat) : digitsToNat 0 (natDigits n) = n := by
  by_cases hn : n = 0
  · subst hn; rfl
  · rw [natDigits_pos hn]
    rw [natToRev_val n (n + 1) 0 (by omega)]
    simp

theorem natDigits_ne_nil (n : Nat) : natDigits n ≠ [] := by
  by_cases hn : n = 0
  · subst hn; simp [natDigits_zero]
  · rw [natDigits_pos hn, natToRev_succ_pos hn]
    simp

theorem natDigits_all_digit (n : Nat) : ∀ c ∈ natDigits n, c.isDigit = true := by
  by_cases hn : n = 0
  · subst hn
    intro c hc
    rw [natDigits_zero, List.mem_singleton] at hc
    subst hc
    decide
  · rw [natDigits_pos hn]
    intro c hc
    rw [List.mem_reverse] at hc
    exact natToRev_all_digit n (n + 1) (by omega) c hc

theorem natDigits_head_pos {n : Nat} (hn : n ≠ 0) :
    ∀ c, (natDigits n).head? = some c → c.isDigit = true ∧ c ≠ '0' := by
  intro c hc
  rw [natDigits_pos hn, List.head?_reverse] at hc
  obtain ⟨d, hd0, hd10, hlast⟩ := natToRev_getLast n (n + 1) (by omega) hn
  rw [hlast] at hc
  have hcd : c = digitChar d := (Option.some.inj hc).symm
  subst hcd
  refine ⟨digitChar_isDigit hd10, ?_⟩
  intro h
  have h2 := congrArg Char.toNat h
  rw [digitChar_toNat hd10] at h2
  have h3 : (48 : Nat) + d = 48 := by simpa using h2
  omega

theorem natToRev_length_le : ∀ n f w, n ≤ f → n < 10 ^ w →
    (natToRev f n).length ≤ w := by
  intro n
  induction n using Nat.strong_induction_on with
  | _ n ih =>
    intro f w hf hw
    by_cases hn : n = 0
    · subst hn; rw [natToRev_zero]; simp
    · obtain ⟨f', rfl⟩ : ∃ f', f = f' + 1 := ⟨f - 1, by omega⟩
      rw [natToRev_succ_pos hn]
      cases w with
      | zero =>
        rw [pow_zero] at hw
        omega
      | succ w' =>
        have hdiv : n / 10 < n := Nat.div_lt_self (by omega) (by omega)
        have hlt : n / 10 < 10 ^ w' := by
          apply Nat.div_lt_of_lt_mul
          rw [pow_succ] at hw
          omega
        have := ih (n / 10) hdiv f' w' (by omega) hlt
        simp only [List.length_cons]
        omega

theorem natToRev_length_ge : ∀ n f w, n ≤ f → 10 ^ w ≤ n →
    w + 1 ≤ (natToRev f n).length := by
  intro n
  induction n using Nat.strong_induction_on with
  | _ n ih =>
    intro f w hf hw
    have hpos : 0 < 10 ^ w := Nat.pos_pow_of_pos w (by omega)
    have hn : n ≠ 0 := by omega
    obtain ⟨f', rfl⟩ : ∃ f', f = f' + 1 := ⟨f - 1, by omega⟩
    rw [natToRev_succ_pos hn]
    cases w with
    | zero => simp
    | succ w' =>
      have hdiv : n / 10 < n := Nat.div_lt_self (by omega) (by omega)
      have hge : 10 ^ w' ≤ n / 10 := by
        rw [Nat.le_div_iff_mul_le (by omega)]
        rw [pow_succ] at hw
        omega
      have := ih (n / 10) hdiv f' w' (by omega) hge
      simp only [List.length_cons]
      omega

theorem natDigits_length_le {n w : Nat} (h : n < 10 ^ w) (hw : 1 ≤ w) :
    (natDigits n).length ≤ w := by
  by_cases hn : n = 0
  · subst hn; rw [natDigits_zero]; simpa using hw
  · rw [natDigits_pos hn, List.length_reverse]
    exact natToRev_length_le n (n + 1) w (by omega) h

theorem natDigits_length_four {n : Nat} (h1 : 1000 ≤ n) (h2 : n ≤ 9999) :
    (natDigits n).length = 4 := by
  have hn : n ≠ 0 := by omega
  have hle : (natDigits n).length ≤ 4 := by
    apply natDigits_length_le
    · norm_num
      omega
    · omega
  have hge : 3 + 1 ≤ (natToRev (n + 1) n).length := by
    apply natToRev_length_ge n (n + 1) 3 (by omega)
    norm_num
    omega
  rw [natDigits_pos hn, List.length_reverse]
  rw [natDigits_pos hn, List.length_reverse] at hle
  omega

theorem padNum_length {w n : Nat} (h : n < 10 ^ w) (hw : 1 ≤ w) :
    (padNum w n).length = w := by
  have hlen := natDigits_length_le h hw
  simp only [padNum, List.length_append, List.length_replicate]
  omega

theorem padNum_all_digit {w n : Nat} : ∀ c ∈ padNum w n, c.isDigit = true := by
  intro c hc
  rcases List.mem_append.mp hc with h | h
  · have := List.eq_of_mem_replicate h
    subst this
    decide
  · exact natDigits_all_digit n c h

theorem hexVal_hexDigitChar : ∀ d, d < 16 → hexVal (hexDigitChar d) = some d := by
  decide

/-! ## String literal round trip -/

theorem parseStrBody_escChar (c : Char) (T : List Char) :
    parseStrBody (escChar c ++ T) =
      (parseStrBody T).map (fun pr => (c :: pr.1, pr.2)) := by
  by_cases h1 : c = '"'
  · subst h1
    simp [escChar, parseStrBody, escDecode]
  · by_cases h2 : c = '\\'
    · subst h2
      simp [escChar, parseStrBody, escDecode]
    · by_cases h3 : c = Char.ofNat 8
      · subst h3
        simp [escChar, parseStrBody, escDecode]
      · by_cases h4 : c = Char.ofNat 9
        · subst h4
          simp [escChar, parseStrBody, escDecode]
        · by_cases h5 : c = Char.ofNat 10
          · subst h5
            simp [escChar, parseStrBody, escDecode]
          · by_cases h6 : c = Char.ofNat 12
            · subst h6
              simp [escChar, parseStrBody, escDecode]
            · by_cases h7 : c = Char.ofNat 13
              · subst h7
                simp [escChar, parseStrBody, escDecode]
              · by_cases h8 : c.toNat < 32
                · have e1 : escChar c = ['\\', 'u', '0', '0',
                      hexDigitChar (c.toNat / 16), hexDigitChar (c.toNat % 16)] := by
                    simp [escChar, h1, h2, h3, h4, h5, h6, h7, h8]
                  rw [e1]
                  have hv : c.toNat / 16 < 16 := by omega
                  have hm : c.toNat % 16 < 16 := Nat.mod_lt _ (by omega)
                  have hx1 := hexVal_hexDigitChar _ hv
                  have hx2 := hexVal_hexDigitChar _ hm
                  have hz : hexVal '0' = some 0 := rfl
                  simp [parseStrBody, hx1, hx2, hz]
                  have harith : (c.toNat / 16) * 16 + c.toNat % 16 = c.toNat := by omega
                  rw [harith, Char.ofNat_toNat]
                · have e1 : escChar c = [c] := by
                    simp [escChar, h1, h2, h3, h4, h5, h6, h7, h8]
                  rw [e1]
                  rw [parseStrBody.eq_def]
                  simp [h1, h2, h8]

theorem parseStrBody_escList : ∀ (s T : List Char),
    parseStrBody (escList s ++ '"' :: T) = some (s, T) := by
  intro s
  induction s with
  | nil =>
    intro T
    simp only [escList, List.nil_append]
    rw [parseStrBody.eq_def]
    simp
  | cons c cs ih =>
    intro T
    show parseStrBody ((escChar c ++ escList cs) ++ '"' :: T) = _
    rw [List.append_assoc, parseStrBody_escChar, ih]
    rfl

theorem parseStrBody_strLit (s T : List Char) :
    parseStrBody (escList s ++ '"' :: T) = some (s, T) := parseStrBody_escList s T

/-! ## Numeral round trip -/

theorem parseNumCore_digits (n : Nat) {rest : List Char}
    (hrest : ∀ y, rest.head? = some y → y.isDigit = false) :
    parseNumCore (natDigits n ++ rest) = some (n, rest) := by
  unfold parseNumCore
  rw [takeWhile_append_all (natDigits_all_digit n) hrest,
      dropWhile_append_all2 (natDigits_all_digit n) hrest]
  rw [if_neg (natDigits_ne_nil n)]
  by_cases hn : n = 0
  · subst hn
    rw [natDigits_zero]
    rw [if_neg (by simp)]
    rfl
  · cases hh : (natDigits n).head? with
    | none =>
      exfalso
      exact natDigits_ne_nil n (List.head?_eq_none_iff.mp hh)
    | some c =>
      obtain ⟨hcd, hc0⟩ := natDigits_head_pos hn c hh
      rw [if_neg (by
        intro hcontra
        exact hc0 (Option.some.inj hcontra.1))]
      rw [natDigits_val]

theorem parseNum_serNum (n : Int) {rest : List Char}
    (hrest : ∀ y, rest.head? = some y → y.isDigit = false) :
    parseNum (serNum n ++ rest) = some (n, rest) := by
  by_cases hneg : n < 0
  · have hser : serNum n = '-' :: natDigits n.natAbs := by simp [serNum, hneg]
    rw [hser, List.cons_append]
    show (parseNumCore (natDigits n.natAbs ++ rest)).map
      (fun pr => (-(pr.1 : Int), pr.2)) = some (n, rest)
    rw [parseNumCore_digits n.natAbs hrest]
    have heq : -((n.natAbs : Nat) : Int) = n := by omega
    show some ((-((n.natAbs : Nat) : Int), rest)) = some ((n, rest))
    rw [heq]
  · have hser : serNum n = natDigits n.natAbs := by simp [serNum, hneg]
    rw [hser]
    cases hnd : natDigits n.natAbs with
    | nil => exact absurd hnd (natDigits_ne_nil _)
    | cons d ds =>
      have hdd : d.isDigit = true :=
        natDigits_all_digit n.natAbs d (by rw [hnd]; exact List.mem_cons_self d ds)
      have hdneg : ¬(d = '-') := by
        intro h
        subst h
        simp at hdd
      rw [List.cons_append, parseNum.eq_def]
      split
      · rename_i cs1 heq2
        exfalso
        injection heq2 with hd2 ht2
        exact hdneg hd2
      rw [← List.cons_append, ← hnd]
      rw [parseNumCore_digits n.natAbs hrest]
      have heq : ((n.natAbs : Nat) : Int) = n := by omega
      show some ((((n.natAbs : Nat) : Int), rest)) = some ((n, rest))
      rw [heq]

/-! ## Value-level parse lemmas -/

theorem parseValue_ws_prefix (f : Nat) (W X : List Char)
    (h : ∀ c ∈ W, isJsonWs c = true) :
    parseValue (f + 1) (W ++ X) = parseValue (f + 1) X := by
  simp only [parseValue, dropWs]
  rw [dropWhile_append_all X h]

theorem parseValue_space (f : Nat) (X : List Char) :
    parseValue (f + 1) (' ' :: X) = parseValue (f + 1) X := by
  have := parseValue_ws_prefix f [' '] X (by intro c hc; simp at hc; subst hc; rfl)
  simpa using this

theorem parseValue_strLit (f : Nat) (s T : List Char) :
    parseValue (f + 1) (strLit s ++ T) = some (.str s, T) := by
  have hshape : strLit s ++ T = '"' :: (escList s ++ '"' :: T) := by
    simp [strLit]
  rw [hshape]
  simp only [parseValue]
  have hq : isJsonWs '"' = false := rfl
  rw [show dropWs ('"' :: (escList s ++ '"' :: T)) = '"' :: (escList s ++ '"' :: T) from
    dropWs_cons hq]
  simp [parseStrBody_escList]

theorem digit_not_special {c : Char} (hd : c.isDigit = true) :
    isJsonWs c = false ∧ ¬(c = '{') ∧ ¬(c = '[') ∧ ¬(c = '"') ∧
      ¬(c = 't') ∧ ¬(c = 'f') ∧ ¬(c = 'n') := by
  refine ⟨?_, ?_, ?_, ?_, ?_, ?_, ?_⟩
  · simp only [isJsonWs, Bool.or_eq_false_iff, decide_eq_false_iff_not]
    refine ⟨⟨⟨?_, ?_⟩, ?_⟩, ?_⟩ <;>
      · intro e
        rw [e] at hd
        exact absurd hd (by decide)
  all_goals
    intro e
    rw [e] at hd
    exact absurd hd (by decide)

theorem parseValue_dispatch_num (f : Nat) (c : Char) (cs : List Char)
    (hws : isJsonWs c = false) (h1 : ¬(c = '{')) (h2 : ¬(c = '[')) (h3 : ¬(c = '"'))
    (h4 : ¬(c = 't')) (h5 : ¬(c = 'f')) (h6 : ¬(c = 'n'))
    (h7 : c = '-' ∨ c.isDigit = true) :
    parseValue (f + 1) (c :: cs) =
      (parseNum (c :: cs)).map (fun pr => (Json.num pr.1, pr.2)) := by
  simp only [parseValue]
  rw [dropWs_cons hws]
  simp [h1, h2, h3, h4, h5, h6, h7]

theorem parseValue_serNum (f : Nat) (n : Int) (T : List Char)
    (hT : ∀ y, T.head? = some y → y.isDigit = false) :
    parseValue (f + 1) (serNum n ++ T) = some (.num n, T) := by
  cases hnd : serNum n with
  | nil =>
    exfalso
    by_cases hneg : n < 0
    · rw [show serNum n = '-' :: natDigits n.natAbs from by simp [serNum, hneg]] at hnd
      cases hnd
    · rw [show serNum n = natDigits n.natAbs from by simp [serNum, hneg]] at hnd
      exact natDigits_ne_nil _ hnd
  | cons d ds =>
    have hclass : d = '-' ∨ d.isDigit = true := by
      by_cases hneg : n < 0
      · rw [show serNum n = '-' :: natDigits n.natAbs from by simp [serNum, hneg]] at hnd
        exact Or.inl (List.cons.inj hnd).1.symm
      · rw [show serNum n = natDigits n.natAbs from by simp [serNum, hneg]] at hnd
        refine Or.inr (natDigits_all_digit n.natAbs d ?_)
        rw [hnd]
        exact List.mem_cons_self d ds
    have hfacts : isJsonWs d = false ∧ ¬(d = '{') ∧ ¬(d = '[') ∧ ¬(d = '"') ∧
        ¬(d = 't') ∧ ¬(d = 'f') ∧ ¬(d = 'n') := by
      rcases hclass with h | h
      · subst h
        refine ⟨by decide, by decide, by decide, by decide, by decide, by decide, by decide⟩
      · exact digit_not_special h
    obtain ⟨hws, hc1, hc2, hc3, hc4, hc5, hc6⟩ := hfacts
    rw [List.cons_append]
    rw [parseValue_dispatch_num f d (ds ++ T) hws hc1 hc2 hc3 hc4 hc5 hc6 hclass]
    rw [← List.cons_append, ← hnd, parseNum_serNum n hT]
    rfl



/-! ## Serialiser shape lemmas -/

theorem sepBy_cons_cons (sep x y : List Char) (ys : List (List Char)) :
    sepBy sep (x :: y :: ys) = x ++ sep ++ sepBy sep (y :: ys) := rfl

theorem sepBy_members (f k : Nat) :
    ∀ (ps : List (List Char × Json)) (p : List Char × Json),
    sepBy commaNl ((p :: ps).map (fun q =>
        indent (k + 1) ++ strLit q.1 ++ ':' :: ' ' :: serVal f (k + 1) q.2)) ++
      Char.ofNat 10 :: indent k ++ ['}'] =
    indent (k + 1) ++ membersOut f k (p :: ps) := by
  intro ps
  induction ps with
  | nil =>
    intro p
    show (indent (k + 1) ++ strLit p.1 ++ ':' :: ' ' :: serVal f (k + 1) p.2) ++
      Char.ofNat 10 :: indent k ++ ['}'] = _
    simp [membersOut, List.append_assoc]
  | cons q rest ih =>
    intro p
    simp only [List.map_cons]
    rw [sepBy_cons_cons]
    have ihq := ih q
    simp only [List.map_cons] at ihq
    simp only [membersOut]
    rw [← ihq]
    simp [commaNl, List.append_assoc]
  
theorem sepBy_elems (f k : Nat) :
    ∀ (ys : List Json) (x : Json),
    sepBy commaNl ((x :: ys).map (fun z => indent (k + 1) ++ serVal f (k + 1) z)) ++
      Char.ofNat 10 :: indent k ++ [']'] =
    indent (k + 1) ++ elemsOut f k (x :: ys) := by
  intro ys
  induction ys with
  | nil =>
    intro x
    show (indent (k + 1) ++ serVal f (k + 1) x) ++ Char.ofNat 10 :: indent k ++ [']'] = _
    simp [elemsOut, List.append_assoc]
  | cons y rest ih =>
    intro x
    simp only [List.map_cons]
    rw [sepBy_cons_cons]
    have ihy := ih y
    simp only [List.map_cons] at ihy
    simp only [elemsOut]
    rw [← ihy]
    simp [commaNl, List.append_assoc]

theorem serVal_obj_cons (f k : Nat) (p : List Char × Json)
    (ps : List (List Char × Json)) :
    serVal (f + 1) k (.obj (p :: ps)) =
      '{' :: Char.ofNat 10 :: (indent (k + 1) ++ membersOut f k (p :: ps)) := by
  show '{' :: Char.ofNat 10 ::
      (sepBy commaNl ((p :: ps).map (fun q =>
        indent (k + 1) ++ strLit q.1 ++ ':' :: ' ' :: serVal f (k + 1) q.2)) ++
      Char.ofNat 10 :: indent k ++ ['}']) = _
  rw [sepBy_members f k ps p]

theorem serVal_arr_cons (f k : Nat) (x : Json) (xs : List Json) :
    serVal (f + 1) k (.arr (x :: xs)) =
      '[' :: Char.ofNat 10 :: (indent (k + 1) ++ elemsOut f k (x :: xs)) := by
  show '[' :: Char.ofNat 10 ::
      (sepBy commaNl ((x :: xs).map (fun z => indent (k + 1) ++ serVal f (k + 1) z)) ++
      Char.ofNat 10 :: indent k ++ [']']) = _
  rw [sepBy_elems f k xs x]

/-! ## Parse lemmas for serialised arrays and objects -/

theorem head?_append_some {A B : List Char} {c : Char} (h : A.head? = some c) :
    (A ++ B).head? = some c := by
  cases A with
  | nil => cases h
  | cons a t => simpa using h

theorem insertField_fresh {acc : List (List Char × Json)} {key : List Char} {v : Json}
    (h : ∀ q ∈ acc, ¬(q.1 = key)) : insertField acc key v = acc ++ [(key, v)] := by
  unfold insertField
  rw [if_neg]
  intro hc
  rw [List.any_eq_true] at hc
  obtain ⟨q, hq, hq2⟩ := hc
  exact h q hq (by simpa using hq2)

theorem strLit_head (s : List Char) : (strLit s).head? = some '"' := rfl

theorem membersOut_head (fsv k : Nat) (p : List Char × Json)
    (ps : List (List Char × Json)) :
    (membersOut fsv k (p :: ps)).head? = some '"' := by
  cases ps with
  | nil => exact head?_append_some (strLit_head p.1)
  | cons q rest => exact head?_append_some (strLit_head p.1)

theorem elemsOut_strs_head (g k : Nat) (i : List Char) (ys : List Json) :
    (elemsOut (g + 1) k (Json.str i :: ys)).head? = some '"' := by
  cases ys with
  | nil => exact head?_append_some (strLit_head i)
  | cons y rest => exact head?_append_some (strLit_head i)

theorem elemsOut_strs_length (g k : Nat) :
    ∀ (imgs : List (List Char)),
    imgs.length ≤ (elemsOut (g + 1) k (imgs.map Json.str)).length := by
  intro imgs
  induction imgs with
  | nil => simp
  | cons i rest ih =>
    cases rest with
    | nil =>
      simp [elemsOut, strLit]
      omega
    | cons j rest2 =>
      simp only [List.map_cons]
      rw [show elemsOut (g + 1) k (Json.str i :: Json.str j :: rest2.map Json.str) =
        serVal (g + 1) (k + 1) (Json.str i) ++
          (',' :: Char.ofNat 10 :: (indent (k + 1) ++
            elemsOut (g + 1) k (Json.str j :: rest2.map Json.str))) from rfl]
      simp only [List.map_cons] at ih
      simp only [List.length_append, List.length_cons] at ih ⊢
      omega

theorem serVal_str (f k : Nat) (s : List Char) :
    serVal (f + 1) k (.str s) = strLit s := rfl

theorem serVal_num (f k : Nat) (n : Int) :
    serVal (f + 1) k (.num n) = serNum n := rfl

theorem serVal_arr_nil (f k : Nat) : serVal (f + 1) k (.arr []) = ("[]".toList) := rfl

theorem serVal_obj_nil (f k : Nat) : serVal (f + 1) k (.obj []) = ("\x7b\x7d".toList) := rfl

theorem parseElems_strs (g fp k : Nat) :
    ∀ (imgs : List (List Char)) (acc : List Json) (lf : Nat) (T : List Char),
    imgs ≠ [] → imgs.length ≤ lf →
    parseElems (parseValue (fp + 1)) lf
        (elemsOut (g + 1) k (imgs.map Json.str) ++ T) acc =
      some (acc ++ imgs.map Json.str, T) := by
  intro imgs
  induction imgs with
  | nil =>
    intro acc lf T hne _
    exact absurd rfl hne
  | cons i rest ih =>
    intro acc lf T _ hlen
    have h1 : 1 ≤ lf := by
      simp only [List.length_cons] at hlen
      omega
    obtain ⟨lf', rfl⟩ : ∃ lf', lf = lf' + 1 := ⟨lf - 1, by omega⟩
    cases rest with
    | nil =>
      have hshape : elemsOut (g + 1) k ([i].map Json.str) ++ T =
          strLit i ++ (Char.ofNat 10 :: (indent k ++ (']' :: T))) := by
        show (serVal (g + 1) (k + 1) (.str i) ++
          (Char.ofNat 10 :: (indent k ++ [']']))) ++ T = _
        rw [serVal_str]
        simp [List.append_assoc]
      have hdws : dropWs (Char.ofNat 10 :: (indent k ++ (']' :: T))) = ']' :: T := by
        rw [dropWs_nl, dropWs_indent]
        exact dropWs_cons (by decide)
      rw [hshape]
      simp only [parseElems]
      rw [parseValue_strLit fp i (Char.ofNat 10 :: (indent k ++ (']' :: T)))]
      simp [hdws]
    | cons j rest2 =>
      have hshape : elemsOut (g + 1) k ((i :: j :: rest2).map Json.str) ++ T =
          strLit i ++ (',' :: Char.ofNat 10 :: (indent (k + 1) ++
            (elemsOut (g + 1) k ((j :: rest2).map Json.str) ++ T))) := by
        simp only [List.map_cons]
        show (serVal (g + 1) (k + 1) (.str i) ++
          (',' :: Char.ofNat 10 :: (indent (k + 1) ++
            elemsOut (g + 1) k (Json.str j :: rest2.map Json.str)))) ++ T = _
        rw [serVal_str]
        simp [List.append_assoc]
      have hdws3 : dropWs (Char.ofNat 10 :: (indent (k + 1) ++
          (elemsOut (g + 1) k ((j :: rest2).map Json.str) ++ T))) =
          elemsOut (g + 1) k ((j :: rest2).map Json.str) ++ T := by
        rw [dropWs_nl, dropWs_indent]
        apply dropWhile_head_neg
        intro y hy
        simp only [List.map_cons] at hy
        rw [head?_append_some (elemsOut_strs_head g k j (rest2.map Json.str))] at hy
        have hy2 : y = '"' := (Option.some.inj hy).symm
        subst hy2
        decide
      rw [hshape]
      simp only [parseElems]
      rw [parseValue_strLit fp i (',' :: Char.ofNat 10 :: (indent (k + 1) ++
        (elemsOut (g + 1) k ((j :: rest2).map Json.str) ++ T)))]
      have hcomma : dropWs (',' :: Char.ofNat 10 :: (indent (k + 1) ++
          (elemsOut (g + 1) k ((j :: rest2).map Json.str) ++ T))) =
          ',' :: Char.ofNat 10 :: (indent (k + 1) ++
          (elemsOut (g + 1) k ((j :: rest2).map Json.str) ++ T)) :=
        dropWs_cons (by decide)
      rw [show (Json.str i, ',' :: Char.ofNat 10 :: (indent (k + 1) ++
        (elemsOut (g + 1) k ((j :: rest2).map Json.str) ++ T))) =
        ((Json.str i : Json), ',' :: Char.ofNat 10 :: (indent (k + 1) ++
        (elemsOut (g + 1) k ((j :: rest2).map Json.str) ++ T))) from rfl]
      simp only [hcomma]
      rw [hdws3]
      rw [ih (acc ++ [Json.str i]) lf' T (by simp) (by
        simp only [List.length_cons] at hlen ⊢
        omega)]
      simp

theorem exists_cons_of_head {l : List Char} {c : Char} (h : l.head? = some c) :
    ∃ t, l = c :: t := by
  cases l with
  | nil => cases h
  | cons a t =>
    refine ⟨t, ?_⟩
    rw [show a = c from by simpa using h]

theorem dropWs_nl_indent_head (k2 : Nat) (X : List Char)
    (hX : ∀ y, X.head? = some y → isJsonWs y = false) :
    dropWs (Char.ofNat 10 :: (indent k2 ++ X)) = X := by
  rw [dropWs_nl, dropWs_indent]
  exact dropWhile_head_neg hX

theorem parseValue_arrStrs (g fp k : Nat) (imgs : List (List Char)) (T : List Char) :
    parseValue (fp + 1 + 1) (serVal (g + 1 + 1) k (.arr (imgs.map Json.str)) ++ T) =
      some (.arr (imgs.map Json.str), T) := by
  cases imgs with
  | nil =>
    show parseValue (fp + 1 + 1) ('[' :: (']' :: T)) = some (.arr [], T)
    rw [show parseValue (fp + 1 + 1) ('[' :: (']' :: T)) =
      (match dropWs (']' :: T) with
       | ']' :: rest => some (Json.arr [], rest)
       | cs1 => (parseElems (parseValue (fp + 1)) (cs1.length + 1) cs1 []).map
           (fun pr => (Json.arr pr.1, pr.2))) from rfl]
    rw [show dropWs (']' :: T) = ']' :: T from dropWs_cons (by decide)]
    rfl
  | cons i rest =>
    simp only [List.map_cons]
    rw [serVal_arr_cons (g + 1) k (Json.str i) (rest.map Json.str)]
    rw [show ('[' :: Char.ofNat 10 :: (indent (k + 1) ++
        elemsOut (g + 1) k (Json.str i :: rest.map Json.str))) ++ T =
      '[' :: (Char.ofNat 10 :: (indent (k + 1) ++
        (elemsOut (g + 1) k (Json.str i :: rest.map Json.str) ++ T))) from by
      simp [List.append_assoc]]
    rw [show parseValue (fp + 1 + 1) ('[' :: (Char.ofNat 10 :: (indent (k + 1) ++
        (elemsOut (g + 1) k (Json.str i :: rest.map Json.str) ++ T)))) =
      (match dropWs (Char.ofNat 10 :: (indent (k + 1) ++
          (elemsOut (g + 1) k (Json.str i :: rest.map Json.str) ++ T))) with
       | ']' :: rest2 => some (Json.arr [], rest2)
       | cs1 => (parseElems (parseValue (fp + 1)) (cs1.length + 1) cs1 []).map
           (fun pr => (Json.arr pr.1, pr.2))) from rfl]
    have hE : dropWs (Char.ofNat 10 :: (indent (k + 1) ++
        (elemsOut (g + 1) k (Json.str i :: rest.map Json.str) ++ T))) =
        elemsOut (g + 1) k (Json.str i :: rest.map Json.str) ++ T := by
      apply dropWs_nl_indent_head
      intro y hy
      rw [head?_append_some (elemsOut_strs_head g k i (rest.map Json.str))] at hy
      rw [show y = '"' from (Option.some.inj hy).symm]
      rfl
    rw [hE]
    obtain ⟨E2, hE2⟩ := exists_cons_of_head
      (head?_append_some (elemsOut_strs_head g k i (rest.map Json.str)) (B := T))
    rw [hE2]
    show (parseElems (parseValue (fp + 1)) (('"' :: E2).length + 1) ('"' :: E2) []).map
        (fun pr => (Json.arr pr.1, pr.2)) = _
    rw [← hE2]
    rw [show elemsOut (g + 1) k (Json.str i :: rest.map Json.str) ++ T =
      elemsOut (g + 1) k ((i :: rest).map Json.str) ++ T from by rw [List.map_cons]]
    rw [parseElems_strs g fp k (i :: rest) []
      ((elemsOut (g + 1) k ((i :: rest).map Json.str) ++ T).length + 1) T
      (by simp)
      (by
        have hlen := elemsOut_strs_length g k (i :: rest)
        simp only [List.length_append, List.length_cons] at hlen ⊢
        omega)]
    simp

theorem parseMembers_chain (pv : List Char → Option (Json × List Char)) (fsv k : Nat) :
    ∀ (fields : List (List Char × Json)), fields ≠ [] →
    ∀ (acc : List (List Char × Json)) (lf : Nat) (T : List Char),
    fields.length ≤ lf →
    (∀ p ∈ fields, ∀ T2 : List Char,
        (∀ y, T2.head? = some y → y.isDigit = false) →
        pv (' ' :: (serVal fsv (k + 1) p.2 ++ T2)) = some (p.2, T2)) →
    (∀ p ∈ fields, ∀ q ∈ acc, ¬(q.1 = p.1)) →
    (fields.map Prod.fst).Nodup →
    parseMembers pv lf (membersOut fsv k fields ++ T) acc = some (acc ++ fields, T) := by
  intro fields
  induction fields with
  | nil => intro hne; exact absurd rfl hne
  | cons p rest ih =>
    intro _ acc lf T hlen hval hfresh hnodup
    have h1lf : 1 ≤ lf := by
      simp only [List.length_cons] at hlen
      omega
    obtain ⟨lf', rfl⟩ : ∃ lf', lf = lf' + 1 := ⟨lf - 1, by omega⟩
    cases rest with
    | nil =>
      have hshape : membersOut fsv k [p] ++ T =
          '"' :: (escList p.1 ++ '"' :: (':' :: ' ' :: (serVal fsv (k + 1) p.2 ++
            (Char.ofNat 10 :: (indent k ++ ('}' :: T)))))) := by
        simp [membersOut, strLit, List.append_assoc]
      have h1 := parseStrBody_escList p.1
        (':' :: ' ' :: (serVal fsv (k + 1) p.2 ++
          (Char.ofNat 10 :: (indent k ++ ('}' :: T)))))
      have h2 : dropWs (':' :: ' ' :: (serVal fsv (k + 1) p.2 ++
          (Char.ofNat 10 :: (indent k ++ ('}' :: T))))) =
          ':' :: ' ' :: (serVal fsv (k + 1) p.2 ++
          (Char.ofNat 10 :: (indent k ++ ('}' :: T)))) := dropWs_cons (by decide)
      have h3 : pv (' ' :: (serVal fsv (k + 1) p.2 ++
          (Char.ofNat 10 :: (indent k ++ ('}' :: T))))) =
          some (p.2, Char.ofNat 10 :: (indent k ++ ('}' :: T))) :=
        hval p (List.mem_cons_self p []) _ (by
          intro y hy
          rw [show y = Char.ofNat 10 from (Option.some.inj hy).symm]
          rfl)
      have h4 : dropWs (Char.ofNat 10 :: (indent k ++ ('}' :: T))) = '}' :: T := by
        rw [dropWs_nl, dropWs_indent]
        exact dropWs_cons (by decide)
      have h5 : insertField acc p.1 p.2 = acc ++ [(p.1, p.2)] :=
        insertField_fresh (fun q hq => hfresh p (List.mem_cons_self p []) q hq)
      rw [hshape]
      rw [show parseMembers pv (lf' + 1)
          ('"' :: (escList p.1 ++ '"' :: (':' :: ' ' :: (serVal fsv (k + 1) p.2 ++
            (Char.ofNat 10 :: (indent k ++ ('}' :: T))))))) acc =
        (match parseStrBody (escList p.1 ++ '"' :: (':' :: ' ' ::
            (serVal fsv (k + 1) p.2 ++ (Char.ofNat 10 :: (indent k ++ ('}' :: T)))))) with
         | none => none
         | some (key, cs2) =>
           match dropWs cs2 with
           | ':' :: cs3 =>
             match pv cs3 with
             | none => none
             | some (v, cs4) =>
               match dropWs cs4 with
               | ',' :: cs5 => parseMembers pv lf' (dropWs cs5) (insertField acc key v)
               | '}' :: cs5 => some (insertField acc key v, cs5)
               | _ => none
           | _ => none) from rfl]
      simp only [h1, h2, h3, h4, h5]
    | cons q rest2 =>
      have hshape : membersOut fsv k (p :: q :: rest2) ++ T =
          '"' :: (escList p.1 ++ '"' :: (':' :: ' ' :: (serVal fsv (k + 1) p.2 ++
            (',' :: Char.ofNat 10 :: (indent (k + 1) ++
              (membersOut fsv k (q :: rest2) ++ T)))))) := by
        simp [membersOut, strLit, List.append_assoc]
      have h1 := parseStrBody_escList p.1
        (':' :: ' ' :: (serVal fsv (k + 1) p.2 ++
          (',' :: Char.ofNat 10 :: (indent (k + 1) ++
            (membersOut fsv k (q :: rest2) ++ T)))))
      have h2 : dropWs (':' :: ' ' :: (serVal fsv (k + 1) p.2 ++
          (',' :: Char.ofNat 10 :: (indent (k + 1) ++
            (membersOut fsv k (q :: rest2) ++ T))))) =
          ':' :: ' ' :: (serVal fsv (k + 1) p.2 ++
          (',' :: Char.ofNat 10 :: (indent (k + 1) ++
            (membersOut fsv k (q :: rest2) ++ T)))) := dropWs_cons (by decide)
      have h3 : pv (' ' :: (serVal fsv (k + 1) p.2 ++
          (',' :: Char.ofNat 10 :: (indent (k + 1) ++
            (membersOut fsv k (q :: rest2) ++ T))))) =
          some (p.2, ',' :: Char.ofNat 10 :: (indent (k + 1) ++
            (membersOut fsv k (q :: rest2) ++ T))) :=
        hval p (List.mem_cons_self p (q :: rest2)) _ (by
          intro y hy
          rw [show y = ',' from (Option.some.inj hy).symm]
          rfl)
      have h4 : dropWs (',' :: Char.ofNat 10 :: (indent (k + 1) ++
          (membersOut fsv k (q :: rest2) ++ T))) =
          ',' :: Char.ofNat 10 :: (indent (k + 1) ++
          (membersOut fsv k (q :: rest2) ++ T)) := dropWs_cons (by decide)
      have h5 : insertField acc p.1 p.2 = acc ++ [(p.1, p.2)] :=
        insertField_fresh (fun r hr => hfresh p (List.mem_cons_self p (q :: rest2)) r hr)
      have h6 : dropWs (Char.ofNat 10 :: (indent (k + 1) ++
          (membersOut fsv k (q :: rest2) ++ T))) =
          membersOut fsv k (q :: rest2) ++ T := by
        apply dropWs_nl_indent_head
        intro y hy
        rw [head?_append_some (membersOut_head fsv k q rest2)] at hy
        rw [show y = '"' from (Option.some.inj hy).symm]
        rfl
      have hnodup2 : ((q :: rest2).map Prod.fst).Nodup := by
        simp only [List.map_cons, List.nodup_cons] at hnodup ⊢
        exact ⟨hnodup.2.1, hnodup.2.2⟩
      have hp1notin : ¬ p.1 ∈ ((q :: rest2).map Prod.fst) := by
        simp only [List.map_cons, List.nodup_cons] at hnodup
        rw [List.map_cons]
        exact hnodup.1
      have h7 : parseMembers pv lf' (membersOut fsv k (q :: rest2) ++ T)
          (acc ++ [(p.1, p.2)]) = some ((acc ++ [(p.1, p.2)]) ++ (q :: rest2), T) := by
        apply ih (by simp) (acc ++ [(p.1, p.2)]) lf' T
        · simp only [List.length_cons] at hlen ⊢
          omega
        · intro p2 hp2 T2 hT2
          exact hval p2 (List.mem_cons_of_mem p hp2) T2 hT2
        · intro p2 hp2 r hr
          rcases List.mem_append.mp hr with hra | hrb
          · exact hfresh p2 (List.mem_cons_of_mem p hp2) r hra
          · rw [List.mem_singleton] at hrb
            subst hrb
            intro hcontra
            apply hp1notin
            rw [hcontra]
            exact List.mem_map_of_mem Prod.fst hp2
        · exact hnodup2
      rw [hshape]
      rw [show parseMembers pv (lf' + 1)
          ('"' :: (escList p.1 ++ '"' :: (':' :: ' ' :: (serVal fsv (k + 1) p.2 ++
            (',' :: Char.ofNat 10 :: (indent (k + 1) ++
              (membersOut fsv k (q :: rest2) ++ T))))))) acc =
        (match parseStrBody (escList p.1 ++ '"' :: (':' :: ' ' ::
            (serVal fsv (k + 1) p.2 ++ (',' :: Char.ofNat 10 :: (indent (k + 1) ++
              (membersOut fsv k (q :: rest2) ++ T)))))) with
         | none => none
         | some (key, cs2) =>
           match dropWs cs2 with
           | ':' :: cs3 =>
             match pv cs3 with
             | none => none
             | some (v, cs4) =>
               match dropWs cs4 with
               | ',' :: cs5 => parseMembers pv lf' (dropWs cs5) (insertField acc key v)
               | '}' :: cs5 => some (insertField acc key v, cs5)
               | _ => none
           | _ => none) from rfl]
      simp only [h1, h2, h3, h4, h5, h6, h7]
      simp

theorem all_str_exists : ∀ {xs : List Json}, xs.all isStrJ = true →
    ∃ imgs : List (List Char), xs = imgs.map Json.str := by
  intro xs
  induction xs with
  | nil => intro _; exact ⟨[], rfl⟩
  | cons x rest ih =>
    intro h
    rw [List.all_cons, Bool.and_eq_true] at h
    obtain ⟨imgs, hrest⟩ := ih h.2
    cases x with
    | str s => exact ⟨s :: imgs, by rw [List.map_cons, hrest]⟩
    | null => exact absurd h.1 (by decide)
    | bool b => exact absurd h.1 (by simp [isStrJ])
    | num n => exact absurd h.1 (by simp [isStrJ])
    | arr ys => exact absurd h.1 (by simp [isStrJ])
    | obj fs => exact absurd h.1 (by simp [isStrJ])

theorem membersOut_length_ge (fsv k : Nat) :
    ∀ (fields : List (List Char × Json)), fields.length ≤ (membersOut fsv k fields).length := by
  intro fields
  induction fields with
  | nil => simp [membersOut]
  | cons p rest ih =>
    cases rest with
    | nil =>
      simp [membersOut, strLit]
    | cons q rest2 =>
      rw [show membersOut fsv k (p :: q :: rest2) =
        strLit p.1 ++ (':' :: ' ' :: (serVal fsv (k + 1) p.2 ++
          (',' :: Char.ofNat 10 :: (indent (k + 1) ++
            membersOut fsv k (q :: rest2))))) from rfl]
      simp only [List.length_append, List.length_cons] at ih ⊢
      omega

/-- Parse one content value (a string or an array of strings) back from
its serialisation. -/
theorem parseValue_contentVal (g fp k : Nat) (v : Json) (hv : isStrOrStrArr v = true)
    (T : List Char) (_hT : ∀ y, T.head? = some y → y.isDigit = false) :
    parseValue (fp + 2) (serVal (g + 2) k v ++ T) = some (v, T) := by
  cases v with
  | str s =>
    rw [show serVal (g + 2) k (.str s) = strLit s from rfl]
    exact parseValue_strLit (fp + 1) s T
  | arr xs =>
    have hall : xs.all isStrJ = true := by simpa [isStrOrStrArr] using hv
    obtain ⟨imgs, rfl⟩ := all_str_exists hall
    exact parseValue_arrStrs g fp k imgs T
  | null => exact absurd hv (by decide)
  | bool b => exact absurd hv (by simp [isStrOrStrArr])
  | num n => exact absurd hv (by simp [isStrOrStrArr])
  | obj fs => exact absurd hv (by simp [isStrOrStrArr])

theorem membersOut_ne_ws (fsv k : Nat) (p : List Char × Json)
    (ps : List (List Char × Json)) (T : List Char) :
    ∀ y, (membersOut fsv k (p :: ps) ++ T).head? = some y → isJsonWs y = false := by
  intro y hy
  rw [head?_append_some (membersOut_head fsv k p ps)] at hy
  rw [show y = '"' from (Option.some.inj hy).symm]
  rfl

/-- Parse a content object (values strings or arrays of strings, keys
distinct) back from its serialisation. -/
theorem parseValue_contentObj (g fp k : Nat) (fs : List (List Char × Json))
    (hvals : ∀ p ∈ fs, isStrOrStrArr p.2 = true)
    (hnodup : (fs.map Prod.fst).Nodup) (T : List Char) :
    parseValue (fp + 3) (serVal (g + 3) k (.obj fs) ++ T) = some (.obj fs, T) := by
  cases fs with
  | nil =>
    show parseValue (fp + 2 + 1) ('{' :: ('}' :: T)) = some (.obj [], T)
    rw [show parseValue (fp + 2 + 1) ('{' :: ('}' :: T)) =
      (match dropWs ('}' :: T) with
       | '}' :: rest => some (Json.obj [], rest)
       | cs1 => (parseMembers (parseValue (fp + 2)) (cs1.length + 1) cs1 []).map
           (fun pr => (Json.obj pr.1, pr.2))) from rfl]
    rw [show dropWs ('}' :: T) = '}' :: T from dropWs_cons (by decide)]
    rfl
  | cons p rest =>
    rw [show serVal (g + 3) k (.obj (p :: rest)) =
      '{' :: Char.ofNat 10 :: (indent (k + 1) ++ membersOut (g + 2) k (p :: rest)) from
      serVal_obj_cons (g + 2) k p rest]
    rw [show ('{' :: Char.ofNat 10 :: (indent (k + 1) ++
        membersOut (g + 2) k (p :: rest))) ++ T =
      '{' :: (Char.ofNat 10 :: (indent (k + 1) ++
        (membersOut (g + 2) k (p :: rest) ++ T))) from by
      simp [List.append_assoc]]
    rw [show parseValue (fp + 2 + 1) ('{' :: (Char.ofNat 10 :: (indent (k + 1) ++
        (membersOut (g + 2) k (p :: rest) ++ T)))) =
      (match dropWs (Char.ofNat 10 :: (indent (k + 1) ++
          (membersOut (g + 2) k (p :: rest) ++ T))) with
       | '}' :: rest2 => some (Json.obj [], rest2)
       | cs1 => (parseMembers (parseValue (fp + 2)) (cs1.length + 1) cs1 []).map
           (fun pr => (Json.obj pr.1, pr.2))) from rfl]
    rw [show dropWs (Char.ofNat 10 :: (indent (k + 1) ++
        (membersOut (g + 2) k (p :: rest) ++ T))) =
        membersOut (g + 2) k (p :: rest) ++ T from
      dropWs_nl_indent_head (k + 1) _ (membersOut_ne_ws (g + 2) k p rest T)]
    obtain ⟨E2, hE2⟩ := exists_cons_of_head
      (head?_append_some (membersOut_head (g + 2) k p rest) (B := T))
    rw [hE2]
    show (parseMembers (parseValue (fp + 2)) (('"' :: E2).length + 1) ('"' :: E2) []).map
        (fun pr => (Json.obj pr.1, pr.2)) = _
    rw [← hE2]
    rw [parseMembers_chain (parseValue (fp + 2)) (g + 2) k (p :: rest) (by simp) []
      ((membersOut (g + 2) k (p :: rest) ++ T).length + 1) T
      (by
        have := membersOut_length_ge (g + 2) k (p :: rest)
        simp only [List.length_append, List.length_cons] at this ⊢
        omega)
      (by
        intro p2 hp2 T2 hT2
        rw [parseValue_space (fp + 1)]
        exact parseValue_contentVal g fp (k + 1) p2.2 (hvals p2 hp2) T2 hT2)
      (by intro p2 _ r hr; cases hr)
      hnodup]
    simp

theorem validDoc_parts {d : Json} (hd : validDoc d = true) :
    ∃ (n : Int) (u : List Char) (fs : List (List Char × Json)) (imgs : List (List Char)),
      d = Json.obj [(("version".toList), Json.num n), (("updatedAt".toList), Json.str u),
        (("content".toList), Json.obj fs),
        (("moodImages".toList), Json.arr (imgs.map Json.str))] ∧
      (∀ p ∈ fs, isStrOrStrArr p.2 = true) ∧ (fs.map Prod.fst).Nodup := by
  unfold validDoc at hd
  split at hd
  · rename_i k1 n k2 u k3 fs k4 imgs
    simp only [Bool.and_eq_true, decide_eq_true_eq] at hd
    obtain ⟨⟨⟨⟨⟨⟨h1, h2⟩, h3⟩, h4⟩, h5⟩, h6⟩, h7⟩ := hd
    obtain ⟨imgsL, himgs⟩ := all_str_exists h6
    subst h1 h2 h3 h4 himgs
    refine ⟨n, u, fs, imgsL, rfl, ?_, h7⟩
    intro p hp
    exact List.all_eq_true.mp h5 p hp
  · exact absurd hd (by decide)

theorem parseValue_validDoc (g fp : Nat) {d : Json} (hd : validDoc d = true)
    (T : List Char) :
    parseValue (fp + 4) (serVal (g + 4) 0 d ++ T) = some (d, T) := by
  obtain ⟨n, u, fs, imgs, rfl, hvals, hnodup⟩ := validDoc_parts hd
  rw [show serVal (g + 4) 0 (Json.obj [(("version".toList), Json.num n),
      (("updatedAt".toList), Json.str u), (("content".toList), Json.obj fs),
      (("moodImages".toList), Json.arr (imgs.map Json.str))]) =
    '{' :: Char.ofNat 10 :: (indent 1 ++ membersOut (g + 3) 0
      [(("version".toList), Json.num n), (("updatedAt".toList), Json.str u),
       (("content".toList), Json.obj fs),
       (("moodImages".toList), Json.arr (imgs.map Json.str))]) from
    serVal_obj_cons (g + 3) 0 _ _]
  rw [show ('{' :: Char.ofNat 10 :: (indent 1 ++ membersOut (g + 3) 0
      [(("version".toList), Json.num n), (("updatedAt".toList), Json.str u),
       (("content".toList), Json.obj fs),
       (("moodImages".toList), Json.arr (imgs.map Json.str))])) ++ T =
    '{' :: (Char.ofNat 10 :: (indent 1 ++ (membersOut (g + 3) 0
      [(("version".toList), Json.num n), (("updatedAt".toList), Json.str u),
       (("content".toList), Json.obj fs),
       (("moodImages".toList), Json.arr (imgs.map Json.str))] ++ T))) from by
    simp [List.append_assoc]]
  rw [show parseValue (fp + 3 + 1) ('{' :: (Char.ofNat 10 :: (indent 1 ++
      (membersOut (g + 3) 0
        [(("version".toList), Json.num n), (("updatedAt".toList), Json.str u),
         (("content".toList), Json.obj fs),
         (("moodImages".toList), Json.arr (imgs.map Json.str))] ++ T)))) =
    (match dropWs (Char.ofNat 10 :: (indent 1 ++
        (membersOut (g + 3) 0
          [(("version".toList), Json.num n), (("updatedAt".toList), Json.str u),
           (("content".toList), Json.obj fs),
           (("moodImages".toList), Json.arr (imgs.map Json.str))] ++ T))) with
     | '}' :: rest2 => some (Json.obj [], rest2)
     | cs1 => (parseMembers (parseValue (fp + 3)) (cs1.length + 1) cs1 []).map
         (fun pr => (Json.obj pr.1, pr.2))) from rfl]
  rw [dropWs_nl_indent_head 1 _ (membersOut_ne_ws (g + 3) 0 _ _ T)]
  obtain ⟨E2, hE2⟩ := exists_cons_of_head
    (head?_append_some (membersOut_head (g + 3) 0 _ _) (B := T))
  rw [hE2]
  show (parseMembers (parseValue (fp + 3)) (('"' :: E2).length + 1) ('"' :: E2) []).map
      (fun pr => (Json.obj pr.1, pr.2)) = _
  rw [← hE2]
  rw [parseMembers_chain (parseValue (fp + 3)) (g + 3) 0 _ (by simp) []
    ((membersOut (g + 3) 0
      [(("version".toList), Json.num n), (("updatedAt".toList), Json.str u),
       (("content".toList), Json.obj fs),
       (("moodImages".toList), Json.arr (imgs.map Json.str))] ++ T).length + 1) T
    (by
      have := membersOut_length_ge (g + 3) 0
        [(("version".toList), Json.num n), (("updatedAt".toList), Json.str u),
         (("content".toList), Json.obj fs),
         (("moodImages".toList), Json.arr (imgs.map Json.str))]
      simp only [List.length_append, List.length_cons] at this ⊢
      omega)
    (by
      intro p2 hp2 T2 hT2
      rw [parseValue_space (fp + 2)]
      simp only [List.mem_cons, List.not_mem_nil, or_false] at hp2
      rcases hp2 with h | h | h | h
      · subst h
        exact parseValue_serNum (fp + 2) n T2 hT2
      · subst h
        exact parseValue_strLit (fp + 2) u T2
      · subst h
        exact parseValue_contentObj g fp 1 fs hvals hnodup T2
      · subst h
        exact parseValue_arrStrs (g + 1) (fp + 1) 1 imgs T2
    )
    (by intro p2 _ r hr; cases hr)
    (by
      rw [show List.map Prod.fst
          [(("version".toList), Json.num n), (("updatedAt".toList), Json.str u),
           (("content".toList), Json.obj fs),
           (("moodImages".toList), Json.arr (imgs.map Json.str))] =
        [("version".toList), ("updatedAt".toList), ("content".toList),
         ("moodImages".toList)] from rfl]
      decide)]
  simp

/-! ## The write/read round trip -/

theorem jsize_pos : ∀ j : Json, 1 ≤ jsize j := by
  intro j
  cases j with
  | arr xs =>
    cases xs with
    | nil => simp [jsize]
    | cons x rest => simp [jsize]
  | obj fs =>
    cases fs with
    | nil => simp [jsize]
    | cons p rest =>
      cases p
      simp [jsize]
  | null => simp [jsize]
  | bool b => simp [jsize]
  | num n => simp [jsize]
  | str s => simp [jsize]

theorem jsize_valid_ge {d : Json} (hd : validDoc d = true) : 4 ≤ jsize d := by
  obtain ⟨n, u, fs, imgs, rfl, _, _⟩ := validDoc_parts hd
  rw [show jsize (Json.obj [(("version".toList), Json.num n),
      (("updatedAt".toList), Json.str u), (("content".toList), Json.obj fs),
      (("moodImages".toList), Json.arr (imgs.map Json.str))]) =
    jsize (Json.num n) + (jsize (Json.str u) + (jsize (Json.obj fs) +
      (jsize (Json.arr (imgs.map Json.str)) + jsize (Json.obj []) + 1) + 1) + 1) + 1 from by
    simp [jsize]]
  have h1 := jsize_pos (Json.num n)
  have h2 := jsize_pos (Json.str u)
  have h3 := jsize_pos (Json.obj fs)
  have h4 := jsize_pos (Json.arr (imgs.map Json.str))
  omega

theorem jsTrim_id {l : List Char} {a z : Char} (hha : l.head? = some a)
    (hhz : l.getLast? = some z) (ha : isTrimWs a = false) (hz : isTrimWs z = false) :
    jsTrim l = l := by
  unfold jsTrim
  have h1 : List.dropWhile isTrimWs l = l := dropWhile_head_neg (fun y hy => by
    rw [show y = a from (Option.some.inj (hha ▸ hy)).symm]
    exact ha)
  have h2 : List.dropWhile isTrimWs l.reverse = l.reverse := dropWhile_head_neg (fun y hy => by
    rw [List.head?_reverse] at hy
    rw [show y = z from (Option.some.inj (hhz ▸ hy)).symm]
    exact hz)
  rw [h1, h2, List.reverse_reverse]

theorem membersOut_getLast_obj (fsv k : Nat) :
    ∀ (fields : List (List Char × Json)),
    (membersOut fsv k fields).getLast? = some '}' := by
  intro fields
  induction fields with
  | nil =>
    show (Char.ofNat 10 :: (indent k ++ ['}'])).getLast? = some '}'
    rw [show Char.ofNat 10 :: (indent k ++ ['}']) =
      (Char.ofNat 10 :: indent k) ++ ['}'] from by simp]
    rw [List.getLast?_append_of_ne_nil _ (by simp)]
    rfl
  | cons p rest ih =>
    cases rest with
    | nil =>
      show (strLit p.1 ++ (':' :: ' ' :: (serVal fsv (k + 1) p.2 ++
        (Char.ofNat 10 :: (indent k ++ ['}']))))).getLast? = some '}'
      rw [List.getLast?_append_of_ne_nil _ (by simp)]
      rw [show (':' :: ' ' :: (serVal fsv (k + 1) p.2 ++
        (Char.ofNat 10 :: (indent k ++ ['}'])))) =
        (':' :: ' ' :: serVal fsv (k + 1) p.2) ++
          ((Char.ofNat 10 :: indent k) ++ ['}']) from by simp]
      rw [List.getLast?_append_of_ne_nil _ (by simp)]
      rw [List.getLast?_append_of_ne_nil _ (by simp)]
      rfl
    | cons q rest2 =>
      show (strLit p.1 ++ (':' :: ' ' :: (serVal fsv (k + 1) p.2 ++
        (',' :: Char.ofNat 10 :: (indent (k + 1) ++
          membersOut fsv k (q :: rest2)))))).getLast? = some '}'
      have hne : membersOut fsv k (q :: rest2) ≠ [] := by
        intro hcontra
        rw [hcontra] at ih
        cases ih
      rw [List.getLast?_append_of_ne_nil _ (by simp [hne])]
      rw [show (':' :: ' ' :: (serVal fsv (k + 1) p.2 ++
        (',' :: Char.ofNat 10 :: (indent (k + 1) ++ membersOut fsv k (q :: rest2))))) =
        (':' :: ' ' :: serVal fsv (k + 1) p.2 ++
          (',' :: Char.ofNat 10 :: indent (k + 1))) ++ membersOut fsv k (q :: rest2) from by
        simp]
      rw [List.getLast?_append_of_ne_nil _ hne]
      exact ih

theorem writeBoard_shape {d : Json} (hd : validDoc d = true) :
    ∃ g, writeBoard d = serVal (g + 4) 0 d := by
  have h4 := jsize_valid_ge hd
  exact ⟨jsize d - 4, by
    unfold writeBoard
    rw [show jsize d - 4 + 4 = jsize d from by omega]⟩

theorem writeBoard_head {d : Json} (hd : validDoc d = true) :
    (writeBoard d).head? = some '{' := by
  obtain ⟨g, hw⟩ := writeBoard_shape hd
  obtain ⟨n, u, fs, imgs, hform, _, _⟩ := validDoc_parts hd
  rw [hw, hform]
  rw [serVal_obj_cons (g + 3) 0 _ _]
  rfl

theorem writeBoard_getLast {d : Json} (hd : validDoc d = true) :
    (writeBoard d).getLast? = some '}' := by
  obtain ⟨g, hw⟩ := writeBoard_shape hd
  obtain ⟨n, u, fs, imgs, hform, _, _⟩ := validDoc_parts hd
  rw [hw, hform]
  rw [serVal_obj_cons (g + 3) 0 _ _]
  rw [show ('{' :: Char.ofNat 10 :: (indent 1 ++ membersOut (g + 3) 0
      [(("version".toList), Json.num n), (("updatedAt".toList), Json.str u),
       (("content".toList), Json.obj fs),
       (("moodImages".toList), Json.arr (imgs.map Json.str))])) =
    ('{' :: Char.ofNat 10 :: indent 1) ++ membersOut (g + 3) 0
      [(("version".toList), Json.num n), (("updatedAt".toList), Json.str u),
       (("content".toList), Json.obj fs),
       (("moodImages".toList), Json.arr (imgs.map Json.str))] from by simp]
  rw [List.getLast?_append_of_ne_nil _ (by
    intro hcontra
    have := membersOut_getLast_obj (g + 3) 0
      [(("version".toList), Json.num n), (("updatedAt".toList), Json.str u),
       (("content".toList), Json.obj fs),
       (("moodImages".toList), Json.arr (imgs.map Json.str))]
    rw [hcontra] at this
    cases this)]
  exact membersOut_getLast_obj (g + 3) 0 _

theorem writeBoard_ne_nil {d : Json} (hd : validDoc d = true) : writeBoard d ≠ [] := by
  intro hcontra
  have := writeBoard_head hd
  rw [hcontra] at this
  cases this

theorem writeBoard_length_ge {d : Json} (hd : validDoc d = true) :
    3 ≤ (writeBoard d).length := by
  obtain ⟨g, hw⟩ := writeBoard_shape hd
  obtain ⟨n, u, fs, imgs, hform, _, _⟩ := validDoc_parts hd
  rw [hw, hform, serVal_obj_cons (g + 3) 0 _ _]
  have := membersOut_length_ge (g + 3) 0
    [(("version".toList), Json.num n), (("updatedAt".toList), Json.str u),
     (("content".toList), Json.obj fs),
     (("moodImages".toList), Json.arr (imgs.map Json.str))]
  simp only [List.length_cons, List.length_append]
  simp only [List.length_cons] at this
  omega

theorem parseJson_writeBoard {d : Json} (hd : validDoc d = true) :
    parseJson (writeBoard d) = some d := by
  obtain ⟨g, hw⟩ := writeBoard_shape hd
  have hlen := writeBoard_length_ge hd
  unfold parseJson
  obtain ⟨fp, hfp⟩ : ∃ fp, (writeBoard d).length + 1 = fp + 4 :=
    ⟨(writeBoard d).length - 3, by omega⟩
  rw [hfp]
  rw [show writeBoard d = serVal (g + 4) 0 d ++ [] from by rw [hw, List.append_nil]]
  rw [parseValue_validDoc g fp hd []]
  rfl

/-- The write/read round trip of the document store: reading back a
valid document just written returns it unchanged. -/
theorem readBoard_writeBoard {d : Json} (hd : validDoc d = true) :
    readBoard (some (writeBoard d)) = d := by
  show (if jsTrim (writeBoard d) = [] then Json.null
    else match parseJson (jsTrim (writeBoard d)) with
      | some v => v
      | none => Json.null) = d
  rw [jsTrim_id (writeBoard_head hd) (writeBoard_getLast hd) (by decide) (by decide)]
  rw [if_neg (writeBoard_ne_nil hd)]
  rw [parseJson_writeBoard hd]

/-! ## File-system and path lemmas -/

theorem fsLookup_erase_self : ∀ (fs : Fs) (p : FsPath), fsLookup (fsErase fs p) p = none := by
  intro fs p
  induction fs with
  | nil => rfl
  | cons e rest ih =>
    show fsLookup (if e.1 = p then fsErase rest p else e :: fsErase rest p) p = none
    by_cases h : e.1 = p
    · rw [if_pos h]
      exact ih
    · rw [if_neg h]
      show (if e.1 = p then some e.2 else fsLookup (fsErase rest p) p) = none
      rw [if_neg h]
      exact ih

theorem fsLookup_write_other {p q : FsPath} (h : p ≠ q) :
    ∀ (fs : Fs) (c : List Char), fsLookup (fsWrite fs q c) p = fsLookup fs p := by
  intro fs c
  induction fs with
  | nil =>
    show (if q = p then some c else none) = none
    rw [if_neg (fun hqp => h hqp.symm)]
  | cons e rest ih =>
    show fsLookup (if e.1 = q then (q, c) :: rest else e :: fsWrite rest q c) p =
      (if e.1 = p then some e.2 else fsLookup rest p)
    by_cases he : e.1 = q
    · rw [if_pos he]
      show (if q = p then some c else fsLookup rest p) = _
      rw [if_neg (fun hqp => h hqp.symm), if_neg (fun hep => h ((he ▸ hep : q = p)).symm)]
    · rw [if_neg he]
      show (if e.1 = p then some e.2 else fsLookup (fsWrite rest q c) p) = _
      by_cases hep : e.1 = p
      · rw [if_pos hep, if_pos hep]
      · rw [if_neg hep, if_neg hep]
        exact ih

theorem fsLookup_erase_other {q p : FsPath} (h : q ≠ p) :
    ∀ fs : Fs, fsLookup (fsErase fs p) q = fsLookup fs q := by
  intro fs
  induction fs with
  | nil => rfl
  | cons e rest ih =>
    show fsLookup (if e.1 = p then fsErase rest p else e :: fsErase rest p) q =
      (if e.1 = q then some e.2 else fsLookup rest q)
    by_cases hep : e.1 = p
    · rw [if_pos hep, if_neg (fun heq : e.1 = q => h (heq.symm.trans hep))]
      exact ih
    · rw [if_neg hep]
      show (if e.1 = q then some e.2 else fsLookup (fsErase rest p) q) = _
      by_cases heq : e.1 = q
      · rw [if_pos heq, if_pos heq]
      · rw [if_neg heq, if_neg heq]
        exact ih

theorem fsLookup_write_self : ∀ (fs : Fs) (p : FsPath) (c : List Char),
    fsLookup (fsWrite fs p c) p = some c := by
  intro fs p c
  induction fs with
  | nil =>
    show (if p = p then some c else none) = some c
    rw [if_pos rfl]
  | cons e rest ih =>
    show fsLookup (if e.1 = p then (p, c) :: rest else e :: fsWrite rest p c) p = some c
    by_cases he : e.1 = p
    · rw [if_pos he]
      show (if p = p then some c else fsLookup rest p) = some c
      rw [if_pos rfl]
    · rw [if_neg he]
      show (if e.1 = p then some e.2 else fsLookup (fsWrite rest p c) p) = some c
      rw [if_neg he]
      exact ih

theorem splitSegAux_no_slash : ∀ (l cur : List Char), (∀ c ∈ l, c ≠ '/') →
    splitSegAux cur l = [cur.reverse ++ l] := by
  intro l
  induction l with
  | nil =>
    intro cur _
    show [cur.reverse] = [cur.reverse ++ []]
    rw [List.append_nil]
  | cons c rest ih =>
    intro cur h
    show (if c = '/' then cur.reverse :: splitSegAux [] rest
      else splitSegAux (c :: cur) rest) = [cur.reverse ++ c :: rest]
    rw [if_neg (h c (List.mem_cons_self c rest))]
    rw [ih (c :: cur) (fun x hx => h x (List.mem_cons_of_mem c hx))]
    simp

theorem joinPath_single {n : List Char} (hslash : ∀ c ∈ n, c ≠ '/') (hnil : n ≠ [])
    (hdot : n ≠ ['.']) (hdots : n ≠ ['.', '.']) (base : FsPath) :
    joinPath base n = base ++ [n] := by
  unfold joinPath splitSeg
  rw [splitSegAux_no_slash n [] hslash]
  show normStep base n = base ++ [n]
  unfold normStep
  rw [if_neg hnil, if_neg hdot, if_neg hdots]

theorem joinPath_traversal (base : FsPath) :
    joinPath (uploadDir base) ("../data/vision-board.txt".toList) = dataFile base := by
  show normStep (normStep ((uploadDir base).dropLast) ("data".toList))
    ("vision-board.txt".toList) = dataFile base
  rw [show (uploadDir base).dropLast = base from List.dropLast_concat ..]
  show base ++ [("data".toList)] ++ [("vision-board.txt".toList)] = dataFile base
  rw [List.append_assoc]
  rfl

theorem upload_path_ne_data (base : FsPath) (n : List Char) :
    uploadDir base ++ [n] ≠ dataFile base := by
  intro h
  unfold uploadDir dataFile at h
  rw [List.append_assoc] at h
  have h2 := List.append_cancel_left h
  injection h2 with h3 _
  exact absurd h3 (by decide)

/-! ## Timestamp and filename lemmas -/

theorem digit_not_isoSep {x : Char} (h : x.isDigit = true) : isoSep x = false := by
  have h1 : x ≠ '-' := by intro he; subst he; exact absurd h (by decide)
  have h2 : x ≠ ':' := by intro he; subst he; exact absurd h (by decide)
  have h3 : x ≠ '.' := by intro he; subst he; exact absurd h (by decide)
  have h4 : x ≠ 'T' := by intro he; subst he; exact absurd h (by decide)
  have h5 : x ≠ 'Z' := by intro he; subst he; exact absurd h (by decide)
  unfold isoSep
  simp [h1, h2, h3, h4, h5]

theorem digit_ne_slash {x : Char} (h : x.isDigit = true) : x ≠ '/' := by
  intro he
  subst he
  exact absurd h (by decide)

theorem tsOf_all_digit (c : ClockT) : ∀ x ∈ tsOf c, x.isDigit = true := by
  intro x hx
  have hx1 : x ∈ (toISOStringL c).filter (fun ch => !(isoSep ch)) := List.mem_of_mem_take hx
  obtain ⟨hmem, hpred⟩ := List.mem_filter.mp hx1
  unfold toISOStringL at hmem
  simp only [List.mem_append, List.mem_cons, List.mem_singleton, List.not_mem_nil,
    or_false] at hmem
  rcases hmem with ((((((h | h | h) | h | h) | h | h) | h | h) | h | h) | h | h) | h
  · exact padNum_all_digit x h
  · subst h; exact absurd hpred (by decide)
  · exact padNum_all_digit x h
  · subst h; exact absurd hpred (by decide)
  · exact padNum_all_digit x h
  · subst h; exact absurd hpred (by decide)
  · exact padNum_all_digit x h
  · subst h; exact absurd hpred (by decide)
  · exact padNum_all_digit x h
  · subst h; exact absurd hpred (by decide)
  · exact padNum_all_digit x h
  · subst h; exact absurd hpred (by decide)
  · exact padNum_all_digit x h
  · subst h; exact absurd hpred (by decide)

theorem filter_all_pred {p : Char → Bool} {l : List Char} (h : ∀ x ∈ l, p x = true) :
    l.filter p = l := by
  rw [List.filter_eq_self]
  intro a ha
  exact h a ha

theorem padNum_filter_sep (w n : Nat) :
    (padNum w n).filter (fun ch => !(isoSep ch)) = padNum w n :=
  filter_all_pred (fun x hx => by rw [digit_not_isoSep (padNum_all_digit x hx)]; rfl)

theorem filter_sep_cons {c : Char} (h : isoSep c = true) (l : List Char) :
    List.filter (fun ch => !(isoSep ch)) (c :: l) = List.filter (fun ch => !(isoSep ch)) l := by
  rw [List.filter_cons, h]
  simp

theorem tsOf_shape {c : ClockT} (hc : validClock c = true) :
    tsOf c = padNum 4 c.year ++ padNum 2 c.month ++ padNum 2 c.day ++
      padNum 2 c.hour ++ padNum 2 c.minute ++ padNum 2 c.second := by
  unfold validClock at hc
  simp only [Bool.and_eq_true, decide_eq_true_eq] at hc
  obtain ⟨⟨⟨⟨⟨⟨hy, hmo⟩, hd⟩, hh⟩, hmi⟩, hs⟩, hms⟩ := hc
  unfold tsOf toISOStringL
  repeat rw [List.filter_append]
  rw [filter_sep_cons (by decide), filter_sep_cons (by decide), filter_sep_cons (by decide),
    filter_sep_cons (by decide), filter_sep_cons (by decide), filter_sep_cons (by decide),
    filter_sep_cons (by decide), List.filter_nil]
  rw [padNum_filter_sep, padNum_filter_sep, padNum_filter_sep, padNum_filter_sep,
    padNum_filter_sep, padNum_filter_sep, padNum_filter_sep]
  rw [List.append_nil]
  have l4 : (padNum 4 c.year).length = 4 := padNum_length (by omega) (by omega)
  have l2a : (padNum 2 c.month).length = 2 := padNum_length (by omega) (by omega)
  have l2b : (padNum 2 c.day).length = 2 := padNum_length (by omega) (by omega)
  have l2c : (padNum 2 c.hour).length = 2 := padNum_length (by omega) (by omega)
  have l2d : (padNum 2 c.minute).length = 2 := padNum_length (by omega) (by omega)
  have l2e : (padNum 2 c.second).length = 2 := padNum_length (by omega) (by omega)
  rw [show padNum 4 c.year ++ padNum 2 c.month ++ padNum 2 c.day ++ padNum 2 c.hour ++
    padNum 2 c.minute ++ padNum 2 c.second ++ padNum 3 c.ms =
    (padNum 4 c.year ++ padNum 2 c.month ++ padNum 2 c.day ++ padNum 2 c.hour ++
    padNum 2 c.minute ++ padNum 2 c.second) ++ padNum 3 c.ms from rfl]
  exact List.take_left' (by
    simp only [List.length_append, l4, l2a, l2b, l2c, l2d, l2e])

theorem tsOf_length {c : ClockT} (hc : validClock c = true) : (tsOf c).length = 14 := by
  rw [tsOf_shape hc]
  unfold validClock at hc
  simp only [Bool.and_eq_true, decide_eq_true_eq] at hc
  obtain ⟨⟨⟨⟨⟨⟨hy, hmo⟩, hd⟩, hh⟩, hmi⟩, hs⟩, _⟩ := hc
  have l4 : (padNum 4 c.year).length = 4 := padNum_length (by omega) (by omega)
  have l2a : (padNum 2 c.month).length = 2 := padNum_length (by omega) (by omega)
  have l2b : (padNum 2 c.day).length = 2 := padNum_length (by omega) (by omega)
  have l2c : (padNum 2 c.hour).length = 2 := padNum_length (by omega) (by omega)
  have l2d : (padNum 2 c.minute).length = 2 := padNum_length (by omega) (by omega)
  have l2e : (padNum 2 c.second).length = 2 := padNum_length (by omega) (by omega)
  simp only [List.length_append, l4, l2a, l2b, l2c, l2d, l2e]

theorem safeExt_mem (n : List Char) :
    safeExt n ∈ [(".png".toList), (".jpg".toList), (".jpeg".toList), (".webp".toList),
      (".gif".toList)] := by
  show (if toLowerL (extnameL n) = (".png".toList) ∨ toLowerL (extnameL n) = (".jpg".toList) ∨
      toLowerL (extnameL n) = (".jpeg".toList) ∨ toLowerL (extnameL n) = (".webp".toList) ∨
      toLowerL (extnameL n) = (".gif".toList) then toLowerL (extnameL n)
    else (".jpg".toList)) ∈ _
  split
  · rename_i h
    rcases h with h | h | h | h | h <;> rw [h] <;> simp
  · simp

theorem safeExt_no_slash (n : List Char) : ∀ x ∈ safeExt n, x ≠ '/' := by
  intro x hx heq
  subst heq
  have h := safeExt_mem n
  simp only [List.mem_cons, List.not_mem_nil, or_false] at h
  rcases h with h | h | h | h | h <;> rw [h] at hx <;> exact absurd hx (by decide)

theorem genMoodFilename_no_slash (n : List Char) (c : ClockT) (r : Nat) :
    ∀ x ∈ genMoodFilename n c r, x ≠ '/' := by
  intro x hx
  unfold genMoodFilename at hx
  simp only [List.mem_append, List.mem_cons] at hx
  rcases hx with ((hx | hx) | hx | hx) | hx
  · intro heq; subst heq; exact absurd hx (by decide)
  · exact digit_ne_slash (tsOf_all_digit c x hx)
  · subst hx; decide
  · exact digit_ne_slash (natDigits_all_digit r x hx)
  · exact safeExt_no_slash n x hx

theorem genMoodFilename_head (n : List Char) (c : ClockT) (r : Nat) :
    (genMoodFilename n c r).head? = some 'm' := rfl

theorem joinPath_mood (base : FsPath) (n : List Char) (c : ClockT) (r : Nat) :
    joinPath (uploadDir base) (genMoodFilename n c r) =
      uploadDir base ++ [genMoodFilename n c r] := by
  have hh := genMoodFilename_head n c r
  refine joinPath_single (genMoodFilename_no_slash n c r) ?_ ?_ ?_ (uploadDir base)
  · intro he; rw [he] at hh; exact absurd hh (by decide)
  · intro he; rw [he] at hh; exact absurd hh (by decide)
  · intro he; rw [he] at hh; exact absurd hh (by decide)

theorem multerSave_names (base : FsPath) : ∀ (files : List UploadFile) (fs : Fs),
    (multerSave base fs files).2 =
      files.map (fun f => genMoodFilename f.originalname f.clock f.rand) := by
  intro files
  induction files with
  | nil => intro fs; rfl
  | cons f rest ih =>
    intro fs
    show genMoodFilename f.originalname f.clock f.rand ::
      (multerSave base (fsWrite fs (joinPath (uploadDir base)
        (genMoodFilename f.originalname f.clock f.rand)) f.bytes) rest).2 = _
    rw [ih, List.map_cons]

theorem multerSave_data_frame (base : FsPath) : ∀ (files : List UploadFile) (fs : Fs),
    fsLookup (multerSave base fs files).1 (dataFile base) = fsLookup fs (dataFile base) := by
  intro files
  induction files with
  | nil => intro fs; rfl
  | cons f rest ih =>
    intro fs
    show fsLookup (multerSave base (fsWrite fs (joinPath (uploadDir base)
      (genMoodFilename f.originalname f.clock f.rand)) f.bytes) rest).1 (dataFile base) = _
    rw [ih]
    rw [joinPath_mood]
    exact fsLookup_write_other
      (fun h => upload_path_ne_data base (genMoodFilename f.originalname f.clock f.rand) h.symm)
      fs f.bytes

/-! ## Lemmas on the POST /api/board document construction -/

theorem mkDocFields_content (o1 o2 : Option Json) (now : List Char) :
    getField (mkDocFields [(("version".toList), some (Json.num 1)),
      (("updatedAt".toList), some (Json.str now)),
      (("content".toList), o1), (("moodImages".toList), o2)]) ("content".toList) = o1 := by
  cases o1 <;> cases o2 <;> rfl

theorem mkDocFields_moodImages (o1 o2 : Option Json) (now : List Char) :
    getField (mkDocFields [(("version".toList), some (Json.num 1)),
      (("updatedAt".toList), some (Json.str now)),
      (("content".toList), o1), (("moodImages".toList), o2)]) ("moodImages".toList) = o2 := by
  cases o1 <;> cases o2 <;> rfl

theorem postNext_content (body current : Json) (now : List Char) :
    getField (postNext body current now) ("content".toList) =
      (if jsTruthyU (getField body ("content".toList)) &&
          jsTypeofU (getField body ("content".toList)) = ("object".toList) then
        getField body ("content".toList)
      else getField current ("content".toList)) :=
  mkDocFields_content _ _ now

theorem postNext_moodImages (body current : Json) (now : List Char) :
    getField (postNext body current now) ("moodImages".toList) =
      (if isArrayJ (getField body ("moodImages".toList)) then
        getField body ("moodImages".toList)
      else getField current ("moodImages".toList)) :=
  mkDocFields_moodImages _ _ now

theorem specPostNext_agree {body : Json} (current : Json) (now : List Char)
    (h : isArrayJ (getField body ("content".toList)) = false) :
    specPostNext body current now = postNext body current now := by
  unfold specPostNext postNext
  have hc : (match getField body ("content".toList) with
      | some (Json.obj fs) => some (Json.obj fs)
      | _ => getField current ("content".toList)) =
      (if jsTruthyU (getField body ("content".toList)) &&
          jsTypeofU (getField body ("content".toList)) = ("object".toList) then
        getField body ("content".toList)
      else getField current ("content".toList)) := by
    cases hg : getField body ("content".toList) with
    | none => rfl
    | some v =>
      cases v with
      | null => rfl
      | bool b => cases b <;> rfl
      | num n =>
        simp [jsTruthyU, jsTypeofU, jsTypeof]
      | str s =>
        simp [jsTruthyU, jsTypeofU, jsTypeof]
      | arr xs =>
        rw [hg] at h
        exact absurd h (by simp [isArrayJ])
      | obj fs2 =>
        simp [jsTruthyU, jsTypeofU, jsTypeof, jsTruthy]
  rw [hc]

/-! ## Unfolded forms of the two mutating handlers -/

theorem postBoard_eq (base : FsPath) (fs : Fs) (reqBody : Option Json) (now : List Char) :
    postBoard base fs reqBody now =
    (if jsTypeof (coerceBody reqBody) ≠ ("object".toList) then
      ((⟨400, errJson ("Invalid payload".toList)⟩ : HttpOut), fs)
    else
      ((⟨200, okJson⟩ : HttpOut), fsWrite fs (dataFile base)
        (writeBoard (postNext (coerceBody reqBody)
          (jsOr (readBoardFs base fs) (defaultBoard now)) now)))) := rfl

theorem deleteMood_eq (base : FsPath) (fs : Fs) (reqBody : Option Json) (now : List Char) :
    deleteMood base fs reqBody now =
    (match getField (coerceBody reqBody) ("filename".toList) with
     | some (Json.str fn) =>
       if fn = [] then ((⟨400, errJson ("filename required".toList)⟩ : HttpOut), fs)
       else
         match jsTruthy (readBoard (fsLookup
             (if fsExists fs (joinPath (uploadDir base) fn) then
               fsErase fs (joinPath (uploadDir base) fn) else fs) (dataFile base))),
           getField (readBoard (fsLookup
             (if fsExists fs (joinPath (uploadDir base) fn) then
               fsErase fs (joinPath (uploadDir base) fn) else fs) (dataFile base)))
             ("moodImages".toList) with
         | true, some (Json.arr xs) =>
           ((⟨200, okJson⟩ : HttpOut),
            fsWrite (if fsExists fs (joinPath (uploadDir base) fn) then
                fsErase fs (joinPath (uploadDir base) fn) else fs) (dataFile base)
              (writeBoard (setField (setField (readBoard (fsLookup
                (if fsExists fs (joinPath (uploadDir base) fn) then
                  fsErase fs (joinPath (uploadDir base) fn) else fs) (dataFile base)))
                ("moodImages".toList) (Json.arr (xs.filter (fun x => !(jsStrEq x fn)))))
                ("updatedAt".toList) (Json.str now))))
         | _, _ => ((⟨200, okJson⟩ : HttpOut),
             if fsExists fs (joinPath (uploadDir base) fn) then
               fsErase fs (joinPath (uploadDir base) fn) else fs)
     | _ => ((⟨400, errJson ("filename required".toList)⟩ : HttpOut), fs)) := rfl

/-- `deleteMood` on a request body carrying a string `filename`, with the
intermediate `let`s of the handler inlined. -/
theorem deleteMood_str (base : FsPath) (fs : Fs) (fn now : List Char) :
    deleteMood base fs (some (Json.obj [(("filename".toList), Json.str fn)])) now =
    (if fn = [] then ((⟨400, errJson ("filename required".toList)⟩ : HttpOut), fs)
     else
       match jsTruthy (readBoard (fsLookup
           (if fsExists fs (joinPath (uploadDir base) fn) then
             fsErase fs (joinPath (uploadDir base) fn) else fs) (dataFile base))),
         getField (readBoard (fsLookup
           (if fsExists fs (joinPath (uploadDir base) fn) then
             fsErase fs (joinPath (uploadDir base) fn) else fs) (dataFile base)))
           ("moodImages".toList) with
       | true, some (Json.arr xs) =>
         ((⟨200, okJson⟩ : HttpOut),
          fsWrite (if fsExists fs (joinPath (uploadDir base) fn) then
              fsErase fs (joinPath (uploadDir base) fn) else fs) (dataFile base)
            (writeBoard (setField (setField (readBoard (fsLookup
              (if fsExists fs (joinPath (uploadDir base) fn) then
                fsErase fs (joinPath (uploadDir base) fn) else fs) (dataFile base)))
              ("moodImages".toList) (Json.arr (xs.filter (fun x => !(jsStrEq x fn)))))
              ("updatedAt".toList) (Json.str now))))
       | _, _ => ((⟨200, okJson⟩ : HttpOut),
           if fsExists fs (joinPath (uploadDir base) fn) then
             fsErase fs (joinPath (uploadDir base) fn) else fs)) := rfl

theorem coerceBody_typeof {body : Json} (h : jsTypeof body = ("object".toList)) :
    jsTypeof (coerceBody (some body)) = ("object".toList) := by
  show jsTypeof (if jsTruthy body then body else Json.obj []) = ("object".toList)
  by_cases ht : jsTruthy body = true
  · rw [if_pos ht]; exact h
  · rw [if_neg ht]; rfl

theorem fsExists_false_lookup {fs : Fs} {p : FsPath} (h : fsExists fs p = false) :
    fsLookup fs p = none := by
  unfold fsExists at h
  cases hl : fsLookup fs p with
  | none => rfl
  | some c =>
    rw [hl] at h
    exact absurd h (by simp)

theorem fs1_lookup_self (fs : Fs) (p : FsPath) :
    fsLookup (if fsExists fs p then fsErase fs p else fs) p = none := by
  by_cases hex : fsExists fs p = true
  · rw [if_pos hex]
    exact fsLookup_erase_self fs p
  · rw [if_neg hex]
    exact fsExists_false_lookup (Bool.not_eq_true _ ▸ hex)

/-! ## Claims -/

/-- C1 (amended): a POST /api/board request is rejected with 400 and an
error message, leaving the store untouched, exactly when the coerced body
(`req.body || {}`) is not of JavaScript type "object" — that is, when it
is a truthy number, string or boolean.  An array body passes the check
(`typeof` of an array is "object"), so, contrary to the claim, bodies
that are not structured objects can be accepted; every body of `typeof`
"object" (objects and arrays alike) is persisted with a 200 response. -/
theorem C1_post_board_payload_check (base : FsPath) (fs : Fs) (reqBody : Option Json)
    (now : List Char) :
    (jsTypeof (coerceBody reqBody) ≠ ("object".toList) →
      postBoard base fs reqBody now = (⟨400, errJson ("Invalid payload".toList)⟩, fs)) ∧
    (jsTypeof (coerceBody reqBody) = ("object".toList) →
      postBoard base fs reqBody now = (⟨200, okJson⟩, fsWrite fs (dataFile base)
        (writeBoard (postNext (coerceBody reqBody)
          (jsOr (readBoardFs base fs) (defaultBoard now)) now)))) := by
  rw [postBoard_eq]
  constructor
  · intro h
    rw [if_pos h]
  · intro h
    rw [if_neg (fun hne => hne h)]

theorem C1_witness :
    postBoard [] [] (some (Json.num 5)) ("N".toList) =
      (⟨400, errJson ("Invalid payload".toList)⟩, []) :=
  (C1_post_board_payload_check [] [] (some (Json.num 5)) ("N".toList)).1 (by decide)

/-- C1 counterexample: an array body — not a structured object — is not
rejected: the handler answers 200 and the stored board document is
altered (the data file is written). -/
theorem C1_counterexample :
    (postBoard [("srv".toList)] [] (some (Json.arr [])) ("N".toList)).1.status = 200 ∧
    fsLookup (postBoard [("srv".toList)] [] (some (Json.arr [])) ("N".toList)).2
      (dataFile [("srv".toList)]) ≠ none := by
  constructor
  · rfl
  · rw [postBoard_eq]
    rw [if_neg (fun hne => hne (by decide))]
    rw [fsLookup_write_self]
    exact Option.some_ne_none _

/-- C2 (amended): when the body is of JavaScript type "object" the handler
persists exactly `postNext body (read() or default) now`; `next.content`
is `body.content` when that field is truthy and of `typeof` "object" —
which keeps arrays as well as objects, not only the structured objects the
claim describes — and `current.content` otherwise, while `next.moodImages`
is `body.moodImages` exactly when it is an array.  Body `{}` keeps
`content` and `moodImages` from the current document, and an object-valued
`body.content` replaces `content` entirely. -/
theorem C2_post_board_next_document (base : FsPath) (fs : Fs) (body current : Json)
    (now : List Char) :
    (jsTypeof body = ("object".toList) →
      postBoard base fs (some body) now = (⟨200, okJson⟩, fsWrite fs (dataFile base)
        (writeBoard (postNext (coerceBody (some body))
          (jsOr (readBoardFs base fs) (defaultBoard now)) now)))) ∧
    (getField (postNext (Json.obj []) current now) ("content".toList) =
      getField current ("content".toList)) ∧
    (getField (postNext (Json.obj []) current now) ("moodImages".toList) =
      getField current ("moodImages".toList)) ∧
    (∀ fc, getField body ("content".toList) = some (Json.obj fc) →
      getField (postNext body current now) ("content".toList) = some (Json.obj fc)) ∧
    (isArrayJ (getField body ("content".toList)) = false →
      specPostNext body current now = postNext body current now) := by
  refine ⟨?_, ?_, ?_, ?_, fun h => specPostNext_agree current now h⟩
  · intro h
    rw [postBoard_eq]
    rw [if_neg (fun hne => hne (coerceBody_typeof h))]
  · rw [postNext_content]
    rfl
  · rw [postNext_moodImages]
    rfl
  · intro fc h
    rw [postNext_content, h]
    rfl

theorem C2_witness :
    getField (postNext (Json.obj [(("content".toList), Json.obj [])])
      (Json.obj []) ("N".toList)) ("content".toList) = some (Json.obj []) :=
  (C2_post_board_next_document [] [] (Json.obj [(("content".toList), Json.obj [])])
    (Json.obj []) ("N".toList)).2.2.2.1 [] rfl

/-- C2 counterexample: with `body.content` an array, the handler keeps the
array (its `typeof` is "object"), while the specification's own reading
of "object" falls back to the current content: the two resulting
documents differ. -/
theorem C2_counterexample :
    getField (postNext (Json.obj [(("content".toList), Json.arr [Json.str ("x".toList)])])
      (Json.obj [(("content".toList), Json.str ("c".toList))]) ("N".toList))
      ("content".toList) = some (Json.arr [Json.str ("x".toList)]) ∧
    getField (specPostNext (Json.obj [(("content".toList), Json.arr [Json.str ("x".toList)])])
      (Json.obj [(("content".toList), Json.str ("c".toList))]) ("N".toList))
      ("content".toList) = some (Json.str ("c".toList)) ∧
    postNext (Json.obj [(("content".toList), Json.arr [Json.str ("x".toList)])])
      (Json.obj [(("content".toList), Json.str ("c".toList))]) ("N".toList) ≠
    specPostNext (Json.obj [(("content".toList), Json.arr [Json.str ("x".toList)])])
      (Json.obj [(("content".toList), Json.str ("c".toList))]) ("N".toList) := by
  refine ⟨rfl, rfl, ?_⟩
  intro h
  have h2 : (some (Json.arr [Json.str ("x".toList)]) : Option Json) =
      some (Json.str ("c".toList)) :=
    congrArg (fun j => getField j ("content".toList)) h
  exact Json.noConfusion (Option.some.inj h2)

/-- C3: the file unlinked by POST /api/delete-mood is the unsanitised
`path.join(UPLOAD_DIR, filename)`: after the handler runs, that joined
path is absent from the store (whenever it is not the data file itself,
which the handler may rewrite); and joining the upload directory with the
traversal filename `../data/vision-board.txt` resolves to the board's own
data file, so that request deletes the stored board document and still
answers 200. -/
theorem C3_delete_mood_unsanitised_join (base : FsPath) (fs : Fs) (now fn : List Char)
    (hfn : fn ≠ []) :
    (joinPath (uploadDir base) fn ≠ dataFile base →
      fsLookup (deleteMood base fs
        (some (Json.obj [(("filename".toList), Json.str fn)])) now).2
        (joinPath (uploadDir base) fn) = none) ∧
    joinPath (uploadDir base) ("../data/vision-board.txt".toList) = dataFile base ∧
    (deleteMood base fs (some (Json.obj [(("filename".toList),
        Json.str ("../data/vision-board.txt".toList))])) now).1.status = 200 ∧
    fsExists (deleteMood base fs (some (Json.obj [(("filename".toList),
        Json.str ("../data/vision-board.txt".toList))])) now).2 (dataFile base) = false := by
  have hself := fs1_lookup_self fs (joinPath (uploadDir base) fn)
  have htrav : fsLookup (if fsExists fs (dataFile base) then fsErase fs (dataFile base)
      else fs) (dataFile base) = none := fs1_lookup_self fs (dataFile base)
  refine ⟨?_, joinPath_traversal base, ?_, ?_⟩
  · intro hne
    rw [deleteMood_str, if_neg hfn]
    split
    · rw [fsLookup_write_other hne]
      exact hself
    · exact hself
  · rw [deleteMood_str, if_neg (by decide), joinPath_traversal, htrav]
    rfl
  · rw [deleteMood_str, if_neg (by decide), joinPath_traversal, htrav]
    show (fsLookup (if fsExists fs (dataFile base) then fsErase fs (dataFile base) else fs)
      (dataFile base)).isSome = false
    rw [fs1_lookup_self fs (dataFile base)]
    rfl

theorem C3_witness :
    fsLookup (deleteMood [("s".toList)]
      [((uploadDir [("s".toList)]) ++ [("a.png".toList)], ("B".toList))]
      (some (Json.obj [(("filename".toList), Json.str ("a.png".toList))]))
      ("T".toList)).2 (joinPath (uploadDir [("s".toList)]) ("a.png".toList)) = none :=
  (C3_delete_mood_unsanitised_join [("s".toList)]
    [((uploadDir [("s".toList)]) ++ [("a.png".toList)], ("B".toList))]
    ("T".toList) ("a.png".toList) (by decide)).1 (by decide)

/-- A body whose `filename` field reads as the string `fn` sends
`deleteMood` into the string branch of the handler. -/
theorem deleteMood_str_of (base : FsPath) (fs : Fs) {reqBody : Option Json}
    {fn : List Char}
    (hg : getField (coerceBody reqBody) ("filename".toList) = some (Json.str fn))
    (now : List Char) :
    deleteMood base fs reqBody now =
    (if fn = [] then ((⟨400, errJson ("filename required".toList)⟩ : HttpOut), fs)
     else
       match jsTruthy (readBoard (fsLookup
           (if fsExists fs (joinPath (uploadDir base) fn) then
             fsErase fs (joinPath (uploadDir base) fn) else fs) (dataFile base))),
         getField (readBoard (fsLookup
           (if fsExists fs (joinPath (uploadDir base) fn) then
             fsErase fs (joinPath (uploadDir base) fn) else fs) (dataFile base)))
           ("moodImages".toList) with
       | true, some (Json.arr xs) =>
         ((⟨200, okJson⟩ : HttpOut),
          fsWrite (if fsExists fs (joinPath (uploadDir base) fn) then
              fsErase fs (joinPath (uploadDir base) fn) else fs) (dataFile base)
            (writeBoard (setField (setField (readBoard (fsLookup
              (if fsExists fs (joinPath (uploadDir base) fn) then
                fsErase fs (joinPath (uploadDir base) fn) else fs) (dataFile base)))
              ("moodImages".toList) (Json.arr (xs.filter (fun x => !(jsStrEq x fn)))))
              ("updatedAt".toList) (Json.str now))))
       | _, _ => ((⟨200, okJson⟩ : HttpOut),
           if fsExists fs (joinPath (uploadDir base) fn) then
             fsErase fs (joinPath (uploadDir base) fn) else fs)) := by
  rw [deleteMood_eq, hg]

/-- C4 (amended): POST /api/delete-mood answers 400 exactly when the
`filename` field of the coerced body is missing, not a string, or — this
is the correction — the empty string, which the guard
`!filename || typeof filename !== "string"` also rejects because the
empty string is falsy; in the 400 case the store is untouched and every
other case answers 200.  The accepted case has the claimed effects: the
file at the joined path is deleted when it exists (and the handler
silently proceeds when it does not — afterwards the joined path is absent
either way), and when a stored valid document is present (its
`moodImages` is an array by validity) the handler removes from it every
occurrence equal to the filename, refreshes `updatedAt`, and persists;
when the named file does not exist and no document is stored the handler
is a complete no-op apart from the 200 acknowledgment. -/
theorem C4_delete_mood_status (base : FsPath) (fs : Fs) (reqBody : Option Json)
    (now : List Char) :
    ((deleteMood base fs reqBody now).1.status = 400 ∨
      (deleteMood base fs reqBody now).1.status = 200) ∧
    ((deleteMood base fs reqBody now).1.status = 400 ↔
      ∀ fn, getField (coerceBody reqBody) ("filename".toList) = some (Json.str fn) →
        fn = []) ∧
    ((deleteMood base fs reqBody now).1.status = 400 →
      (deleteMood base fs reqBody now).2 = fs) ∧
    (∀ fn, getField (coerceBody reqBody) ("filename".toList) = some (Json.str fn) →
      fn ≠ [] → fsExists fs (joinPath (uploadDir base) fn) = false →
      fsLookup fs (dataFile base) = none →
      deleteMood base fs reqBody now = (⟨200, okJson⟩, fs)) ∧
    (∀ fn, getField (coerceBody reqBody) ("filename".toList) = some (Json.str fn) →
      fn ≠ [] → joinPath (uploadDir base) fn ≠ dataFile base →
      fsLookup (deleteMood base fs reqBody now).2 (joinPath (uploadDir base) fn) = none) ∧
    (∀ fn d imgs,
      getField (coerceBody reqBody) ("filename".toList) = some (Json.str fn) →
      fn ≠ [] → validDoc d = true →
      fsLookup fs (dataFile base) = some (writeBoard d) →
      joinPath (uploadDir base) fn ≠ dataFile base →
      getField d ("moodImages".toList) = some (Json.arr imgs) →
      deleteMood base fs reqBody now = (⟨200, okJson⟩,
        fsWrite (if fsExists fs (joinPath (uploadDir base) fn) then
            fsErase fs (joinPath (uploadDir base) fn) else fs) (dataFile base)
          (writeBoard (setField (setField d ("moodImages".toList)
            (Json.arr (imgs.filter (fun x => !(jsStrEq x fn)))))
            ("updatedAt".toList) (Json.str now))))) := by
  cases hg : getField (coerceBody reqBody) ("filename".toList) with
  | none =>
    have hred : deleteMood base fs reqBody now =
        (⟨400, errJson ("filename required".toList)⟩, fs) := by
      rw [deleteMood_eq, hg]
    rw [hred]
    exact ⟨Or.inl rfl, ⟨fun _ fn h => Option.noConfusion h, fun _ => rfl⟩,
      fun _ => rfl, fun fn h => Option.noConfusion h,
      fun fn h => Option.noConfusion h, fun fn d imgs h => Option.noConfusion h⟩
  | some v =>
    cases v with
    | null =>
      have hred : deleteMood base fs reqBody now =
          (⟨400, errJson ("filename required".toList)⟩, fs) := by
        rw [deleteMood_eq, hg]
      rw [hred]
      exact ⟨Or.inl rfl, ⟨fun _ fn h => Json.noConfusion (Option.some.inj h),
        fun _ => rfl⟩, fun _ => rfl, fun fn h => Json.noConfusion (Option.some.inj h),
        fun fn h => Json.noConfusion (Option.some.inj h),
        fun fn d imgs h => Json.noConfusion (Option.some.inj h)⟩
    | bool b =>
      have hred : deleteMood base fs reqBody now =
          (⟨400, errJson ("filename required".toList)⟩, fs) := by
        rw [deleteMood_eq, hg]
      rw [hred]
      exact ⟨Or.inl rfl, ⟨fun _ fn h => Json.noConfusion (Option.some.inj h),
        fun _ => rfl⟩, fun _ => rfl, fun fn h => Json.noConfusion (Option.some.inj h),
        fun fn h => Json.noConfusion (Option.some.inj h),
        fun fn d imgs h => Json.noConfusion (Option.some.inj h)⟩
    | num n =>
      have hred : deleteMood base fs reqBody now =
          (⟨400, errJson ("filename required".toList)⟩, fs) := by
        rw [deleteMood_eq, hg]
      rw [hred]
      exact ⟨Or.inl rfl, ⟨fun _ fn h => Json.noConfusion (Option.some.inj h),
        fun _ => rfl⟩, fun _ => rfl, fun fn h => Json.noConfusion (Option.some.inj h),
        fun fn h => Json.noConfusion (Option.some.inj h),
        fun fn d imgs h => Json.noConfusion (Option.some.inj h)⟩
    | arr xs =>
      have hred : deleteMood base fs reqBody now =
          (⟨400, errJson ("filename required".toList)⟩, fs) := by
        rw [deleteMood_eq, hg]
      rw [hred]
      exact ⟨Or.inl rfl, ⟨fun _ fn h => Json.noConfusion (Option.some.inj h),
        fun _ => rfl⟩, fun _ => rfl, fun fn h => Json.noConfusion (Option.some.inj h),
        fun fn h => Json.noConfusion (Option.some.inj h),
        fun fn d imgs h => Json.noConfusion (Option.some.inj h)⟩
    | obj fields =>
      have hred : deleteMood base fs reqBody now =
          (⟨400, errJson ("filename required".toList)⟩, fs) := by
        rw [deleteMood_eq, hg]
      rw [hred]
      exact ⟨Or.inl rfl, ⟨fun _ fn h => Json.noConfusion (Option.some.inj h),
        fun _ => rfl⟩, fun _ => rfl, fun fn h => Json.noConfusion (Option.some.inj h),
        fun fn h => Json.noConfusion (Option.some.inj h),
        fun fn d imgs h => Json.noConfusion (Option.some.inj h)⟩
    | str fn =>
      rw [deleteMood_str_of base fs hg now]
      by_cases hfn : fn = []
      · rw [if_pos hfn]
        refine ⟨Or.inl rfl, ⟨fun _ fn2 h => ?_, fun _ => rfl⟩, fun _ => rfl,
          fun fn2 h hne => ?_, fun fn2 h hne => ?_, fun fn2 d imgs h hne => ?_⟩
        · injection Option.some.inj h with h2
          rw [← h2]
          exact hfn
        · injection Option.some.inj h with h2
          exact absurd (h2 ▸ hfn) hne
        · injection Option.some.inj h with h2
          exact absurd (h2 ▸ hfn) hne
        · injection Option.some.inj h with h2
          exact absurd (h2 ▸ hfn) hne
      · rw [if_neg hfn]
        have hft : ¬(false = true) := by decide
        refine ⟨?_, ⟨?_, ?_⟩, ?_, ?_, ?_, ?_⟩
        · right
          split <;> rfl
        · intro h400
          exfalso
          split at h400 <;>
            exact absurd (show (200 : Nat) = 400 from h400) (by decide)
        · intro hall
          exact absurd (hall fn rfl) hfn
        · intro h400
          exfalso
          split at h400 <;>
            exact absurd (show (200 : Nat) = 400 from h400) (by decide)
        · intro fn2 h hne hnofile hnodoc
          have h3 : fn2 = fn := by
            injection Option.some.inj h with h2
            exact h2.symm
          subst h3
          rw [hnofile, if_neg hft, hnodoc]
          rfl
        · intro fn2 h hne hnepath
          have h3 : fn2 = fn := by
            injection Option.some.inj h with h2
            exact h2.symm
          subst h3
          split
          · rw [fsLookup_write_other hnepath]
            exact fs1_lookup_self fs (joinPath (uploadDir base) fn2)
          · exact fs1_lookup_self fs (joinPath (uploadDir base) fn2)
        · intro fn2 d imgs h hne hd hstore hnepath himgs
          have h3 : fn2 = fn := by
            injection Option.some.inj h with h2
            exact h2.symm
          subst h3
          obtain ⟨n, u, cf, imgsL, hform, hall, hnodup⟩ := validDoc_parts hd
          subst hform
          have hread := readBoard_writeBoard hd
          have h1 : (some (Json.arr (imgsL.map Json.str)) : Option Json) =
              some (Json.arr imgs) := himgs
          injection Option.some.inj h1 with h4
          subst h4
          have hfs1 : fsLookup (if fsExists fs (joinPath (uploadDir base) fn2) then
              fsErase fs (joinPath (uploadDir base) fn2) else fs) (dataFile base) =
              some (writeBoard (Json.obj [(("version".toList), Json.num n),
                (("updatedAt".toList), Json.str u), (("content".toList), Json.obj cf),
                (("moodImages".toList), Json.arr (imgsL.map Json.str))])) := by
            by_cases hex : fsExists fs (joinPath (uploadDir base) fn2) = true
            · rw [if_pos hex,
                fsLookup_erase_other (fun hq => hnepath hq.symm), hstore]
            · rw [if_neg hex, hstore]
          rw [hfs1, hread]
          rfl

theorem C4_witness :
    deleteMood [("u".toList)]
      [((joinPath (uploadDir [("u".toList)]) ("a.png".toList)), ("IMG".toList)),
       (dataFile [("u".toList)], writeBoard (Json.obj [(("version".toList), Json.num 1),
         (("updatedAt".toList), Json.str ("A".toList)), (("content".toList), Json.obj []),
         (("moodImages".toList), Json.arr [Json.str ("a.png".toList),
           Json.str ("b.png".toList)])]))]
      (some (Json.obj [(("filename".toList), Json.str ("a.png".toList))])) ("B".toList) =
    (⟨200, okJson⟩, fsWrite
      (if fsExists [((joinPath (uploadDir [("u".toList)]) ("a.png".toList)), ("IMG".toList)),
          (dataFile [("u".toList)], writeBoard (Json.obj [(("version".toList), Json.num 1),
            (("updatedAt".toList), Json.str ("A".toList)),
            (("content".toList), Json.obj []),
            (("moodImages".toList), Json.arr [Json.str ("a.png".toList),
              Json.str ("b.png".toList)])]))]
          (joinPath (uploadDir [("u".toList)]) ("a.png".toList)) then
        fsErase [((joinPath (uploadDir [("u".toList)]) ("a.png".toList)), ("IMG".toList)),
          (dataFile [("u".toList)], writeBoard (Json.obj [(("version".toList), Json.num 1),
            (("updatedAt".toList), Json.str ("A".toList)),
            (("content".toList), Json.obj []),
            (("moodImages".toList), Json.arr [Json.str ("a.png".toList),
              Json.str ("b.png".toList)])]))]
          (joinPath (uploadDir [("u".toList)]) ("a.png".toList))
      else [((joinPath (uploadDir [("u".toList)]) ("a.png".toList)), ("IMG".toList)),
          (dataFile [("u".toList)], writeBoard (Json.obj [(("version".toList), Json.num 1),
            (("updatedAt".toList), Json.str ("A".toList)),
            (("content".toList), Json.obj []),
            (("moodImages".toList), Json.arr [Json.str ("a.png".toList),
              Json.str ("b.png".toList)])]))])
      (dataFile [("u".toList)])
      (writeBoard (setField (setField (Json.obj [(("version".toList), Json.num 1),
          (("updatedAt".toList), Json.str ("A".toList)), (("content".toList), Json.obj []),
          (("moodImages".toList), Json.arr [Json.str ("a.png".toList),
            Json.str ("b.png".toList)])])
        ("moodImages".toList)
        (Json.arr ([Json.str ("a.png".toList), Json.str ("b.png".toList)].filter
          (fun x => !(jsStrEq x ("a.png".toList))))))
        ("updatedAt".toList) (Json.str ("B".toList))))) :=
  (C4_delete_mood_status [("u".toList)]
    [((joinPath (uploadDir [("u".toList)]) ("a.png".toList)), ("IMG".toList)),
     (dataFile [("u".toList)], writeBoard (Json.obj [(("version".toList), Json.num 1),
       (("updatedAt".toList), Json.str ("A".toList)), (("content".toList), Json.obj []),
       (("moodImages".toList), Json.arr [Json.str ("a.png".toList),
         Json.str ("b.png".toList)])]))]
    (some (Json.obj [(("filename".toList), Json.str ("a.png".toList))]))
    ("B".toList)).2.2.2.2.2 ("a.png".toList)
    (Json.obj [(("version".toList), Json.num 1),
      (("updatedAt".toList), Json.str ("A".toList)), (("content".toList), Json.obj []),
      (("moodImages".toList), Json.arr [Json.str ("a.png".toList),
        Json.str ("b.png".toList)])])
    [Json.str ("a.png".toList), Json.str ("b.png".toList)]
    rfl (by decide) (by decide) rfl (by decide) rfl

/-- C4 counterexample: a request whose `filename` field is present and is
a string — the empty string — is nevertheless rejected with 400, against
the claim's "fails ... if and only if the filename field is missing or
not a string". -/
theorem C4_counterexample :
    getField (coerceBody (some (Json.obj [(("filename".toList), Json.str [])])))
      ("filename".toList) = some (Json.str []) ∧
    (deleteMood [] [] (some (Json.obj [(("filename".toList), Json.str [])]))
      ("T".toList)).1 = ⟨400, errJson ("filename required".toList)⟩ :=
  ⟨rfl, rfl⟩

/-- C5 (amended): deleting a filename that names no file in the upload
directory and appears nowhere in the stored document's moodImages still
answers 200, but — against the claim — the stored document is rewritten
with a refreshed `updatedAt`: the handler unconditionally sets
`board.updatedAt` and persists whenever a stored document with an array
`moodImages` exists, even when the filter removed nothing. -/
theorem C5_delete_absent_name (base : FsPath) (fs : Fs) (now fn : List Char)
    {d : Json} (hd : validDoc d = true) (hfn : fn ≠ [])
    (hnofile : fsExists fs (joinPath (uploadDir base) fn) = false)
    (hstore : fsLookup fs (dataFile base) = some (writeBoard d))
    (hnotin : ∀ imgs, getField d ("moodImages".toList) = some (Json.arr imgs) →
      ∀ x ∈ imgs, jsStrEq x fn = false) :
    deleteMood base fs (some (Json.obj [(("filename".toList), Json.str fn)])) now =
      (⟨200, okJson⟩, fsWrite fs (dataFile base)
        (writeBoard (setField d ("updatedAt".toList) (Json.str now)))) := by
  have hread : readBoard (some (writeBoard d)) = d := readBoard_writeBoard hd
  obtain ⟨n, u, cf, imgs, hform, hall, hnodup⟩ := validDoc_parts hd
  subst hform
  have hft : ¬(false = true) := by decide
  rw [deleteMood_str, if_neg hfn, hnofile, if_neg hft, hstore, hread]
  have hn : ∀ x ∈ imgs.map Json.str, jsStrEq x fn = false := hnotin (imgs.map Json.str) rfl
  have hfil : (imgs.map Json.str).filter (fun x => !(jsStrEq x fn)) = imgs.map Json.str := by
    rw [List.filter_eq_self]
    intro a ha
    rw [hn a ha]
    rfl
  show ((⟨200, okJson⟩ : HttpOut), fsWrite fs (dataFile base)
    (writeBoard (setField (setField (Json.obj [(("version".toList), Json.num n),
      (("updatedAt".toList), Json.str u), (("content".toList), Json.obj cf),
      (("moodImages".toList), Json.arr ((imgs.map Json.str).filter
        (fun x => !(jsStrEq x fn))))]) ("moodImages".toList)
      (Json.arr ((imgs.map Json.str).filter (fun x => !(jsStrEq x fn)))))
      ("updatedAt".toList) (Json.str now)))) = _
  rw [hfil]
  rfl

theorem C5_witness :
    deleteMood [("s".toList)]
      [(dataFile [("s".toList)], writeBoard (Json.obj [(("version".toList), Json.num 1),
        (("updatedAt".toList), Json.str ("A".toList)), (("content".toList), Json.obj []),
        (("moodImages".toList), Json.arr [Json.str ("a.png".toList)])]))]
      (some (Json.obj [(("filename".toList), Json.str ("zzz.png".toList))])) ("B".toList) =
    (⟨200, okJson⟩, fsWrite
      [(dataFile [("s".toList)], writeBoard (Json.obj [(("version".toList), Json.num 1),
        (("updatedAt".toList), Json.str ("A".toList)), (("content".toList), Json.obj []),
        (("moodImages".toList), Json.arr [Json.str ("a.png".toList)])]))]
      (dataFile [("s".toList)])
      (writeBoard (setField (Json.obj [(("version".toList), Json.num 1),
        (("updatedAt".toList), Json.str ("A".toList)), (("content".toList), Json.obj []),
        (("moodImages".toList), Json.arr [Json.str ("a.png".toList)])])
        ("updatedAt".toList) (Json.str ("B".toList))))) :=
  C5_delete_absent_name [("s".toList)] _ ("B".toList) ("zzz.png".toList)
    (by decide) (by decide) (by decide) rfl
    (by
      intro imgs h x hx
      have h1 : (some (Json.arr [Json.str ("a.png".toList)]) : Option Json) =
          some (Json.arr imgs) := h
      have h2 := Option.some.inj h1
      injection h2 with h3
      rw [← h3] at hx
      simp only [List.mem_singleton] at hx
      subst hx
      decide)

/-- C5 counterexample: with the stored board `{version: 1, updatedAt: "A",
content: {}, moodImages: ["a.png"]}`, deleting the absent filename
`zzz.png` (no such file, not in moodImages) answers 200 but rewrites the
document: the read-back `updatedAt` changes from "A" to "B" (the request
time), so the document is not left unchanged. -/
theorem C5_counterexample :
    fsExists [(dataFile [("s".toList)],
        ("\x7b\"version\": 1, \"updatedAt\": \"A\", \"content\": \x7b\x7d, \"moodImages\": [\"a.png\"]\x7d".toList))]
      (joinPath (uploadDir [("s".toList)]) ("zzz.png".toList)) = false ∧
    jsStrEq (Json.str ("a.png".toList)) ("zzz.png".toList) = false ∧
    readBoard (fsLookup [(dataFile [("s".toList)],
        ("\x7b\"version\": 1, \"updatedAt\": \"A\", \"content\": \x7b\x7d, \"moodImages\": [\"a.png\"]\x7d".toList))]
      (dataFile [("s".toList)])) =
      Json.obj [(("version".toList), Json.num 1),
        (("updatedAt".toList), Json.str ("A".toList)), (("content".toList), Json.obj []),
        (("moodImages".toList), Json.arr [Json.str ("a.png".toList)])] ∧
    (deleteMood [("s".toList)] [(dataFile [("s".toList)],
        ("\x7b\"version\": 1, \"updatedAt\": \"A\", \"content\": \x7b\x7d, \"moodImages\": [\"a.png\"]\x7d".toList))]
      (some (Json.obj [(("filename".toList), Json.str ("zzz.png".toList))]))
      ("B".toList)).1.status = 200 ∧
    getField (readBoard (fsLookup (deleteMood [("s".toList)] [(dataFile [("s".toList)],
        ("\x7b\"version\": 1, \"updatedAt\": \"A\", \"content\": \x7b\x7d, \"moodImages\": [\"a.png\"]\x7d".toList))]
      (some (Json.obj [(("filename".toList), Json.str ("zzz.png".toList))]))
      ("B".toList)).2 (dataFile [("s".toList)]))) ("updatedAt".toList) =
      some (Json.str ("B".toList)) := by
  refine ⟨rfl, rfl, rfl, rfl, ?_⟩
  have hlookup : fsLookup (deleteMood [("s".toList)] [(dataFile [("s".toList)],
      ("\x7b\"version\": 1, \"updatedAt\": \"A\", \"content\": \x7b\x7d, \"moodImages\": [\"a.png\"]\x7d".toList))]
      (some (Json.obj [(("filename".toList), Json.str ("zzz.png".toList))]))
      ("B".toList)).2 (dataFile [("s".toList)]) =
      some (writeBoard (Json.obj [(("version".toList), Json.num 1),
        (("updatedAt".toList), Json.str ("B".toList)), (("content".toList), Json.obj []),
        (("moodImages".toList), Json.arr [Json.str ("a.png".toList)])])) := rfl
  rw [hlookup]
  rw [readBoard_writeBoard (by decide)]
  rfl

/-- C6: the write/read round trip.  For every valid BoardDocument `d`,
reading the data file immediately after `writeBoard d` wrote it returns a
document equal to `d` — in fact equal in every field, which subsumes the
claimed equality of `content` and `moodImages` (no intervening call
refreshes `updatedAt` between the write and the read). -/
theorem C6_write_read_round_trip {d : Json} (hd : validDoc d = true) :
    readBoard (some (writeBoard d)) = d :=
  readBoard_writeBoard hd

theorem C6_witness :
    readBoard (some (writeBoard (defaultBoard ("T".toList)))) = defaultBoard ("T".toList) :=
  C6_write_read_round_trip rfl

/-- C7 (amended): read() returns the parsed value when the backing file
exists and its trimmed contents parse, and `null` when the file is
missing, empty after trimming, or unparseable; GET /api/board always
answers 200.  The correction: GET substitutes the default document based
on JavaScript truthiness of the read result, not on its presence — a
stored file whose contents parse to a falsy value (for example `0`) reads
back as that value, yet GET answers with the default document instead of
the read one. -/
theorem C7_read_get_characterisation (base : FsPath) (fs : Fs) (now raw : List Char)
    (v : Json) :
    (getBoard base fs now).status = 200 ∧
    (getBoard base fs now).body =
      (if jsTruthy (readBoardFs base fs) then readBoardFs base fs else defaultBoard now) ∧
    (fsLookup fs (dataFile base) = none → readBoardFs base fs = Json.null) ∧
    (jsTrim raw = [] → readBoard (some raw) = Json.null) ∧
    (parseJson (jsTrim raw) = none → readBoard (some raw) = Json.null) ∧
    (parseJson (jsTrim raw) = some v → readBoard (some raw) = v) := by
  refine ⟨rfl, rfl, ?_, ?_, ?_, ?_⟩
  · intro h
    unfold readBoardFs
    rw [h]
    rfl
  · intro h
    show (if jsTrim raw = [] then Json.null else _) = Json.null
    rw [if_pos h]
  · intro h
    show (if jsTrim raw = [] then Json.null
      else match parseJson (jsTrim raw) with
        | some v2 => v2
        | none => Json.null) = Json.null
    by_cases ht : jsTrim raw = []
    · rw [if_pos ht]
    · rw [if_neg ht, h]
  · intro h
    show (if jsTrim raw = [] then Json.null
      else match parseJson (jsTrim raw) with
        | some v2 => v2
        | none => Json.null) = v
    by_cases ht : jsTrim raw = []
    · rw [ht] at h
      exact Option.noConfusion (show (none : Option Json) = some v from h)
    · rw [if_neg ht, h]

theorem C7_witness : readBoard (some ((" 7 ".toList))) = Json.num 7 :=
  (C7_read_get_characterisation [] [] [] (" 7 ".toList) (Json.num 7)).2.2.2.2.2 rfl

/-- C7 counterexample: a backing file containing `0` — valid JSON — reads
back as the number 0, which is not absent (`null`); yet GET /api/board
answers with the default document rather than the read one, because the
handler tests truthiness, not presence. -/
theorem C7_counterexample :
    readBoardFs [("s".toList)] [(dataFile [("s".toList)], ("0".toList))] ≠ Json.null ∧
    (getBoard [("s".toList)] [(dataFile [("s".toList)], ("0".toList))] ("N".toList)).body =
      defaultBoard ("N".toList) := by
  constructor
  · intro h
    have h2 : Json.num 0 = Json.null := h
    exact Json.noConfusion h2
  · rfl

/-- C8: every stored upload filename is `mood_` + a 14-digit
YYYYMMDDHHMMSS timestamp + `_` + the 4-digit random draw + the safe
extension, where the safe extension is the lowercased original extension
when it is one of .png/.jpg/.jpeg/.webp/.gif and `.jpg` otherwise (the
clock reading is assumed in range, and the random draw in [1000, 9999] as
`Math.floor(1000 + Math.random() * 9000)` guarantees). -/
theorem C8_upload_filename_shape (name : List Char) (c : ClockT) (rand : Nat)
    (hc : validClock c = true) (h1 : 1000 ≤ rand) (h2 : rand ≤ 9999) :
    genMoodFilename name c rand =
      ("mood_".toList) ++ tsOf c ++ '_' :: natDigits rand ++ safeExt name ∧
    (tsOf c).length = 14 ∧ (∀ x ∈ tsOf c, x.isDigit = true) ∧
    (natDigits rand).length = 4 ∧ (∀ x ∈ natDigits rand, x.isDigit = true) ∧
    ((toLowerL (extnameL name) = (".png".toList) ∨
      toLowerL (extnameL name) = (".jpg".toList) ∨
      toLowerL (extnameL name) = (".jpeg".toList) ∨
      toLowerL (extnameL name) = (".webp".toList) ∨
      toLowerL (extnameL name) = (".gif".toList)) →
      safeExt name = toLowerL (extnameL name)) ∧
    (¬(toLowerL (extnameL name) = (".png".toList) ∨
      toLowerL (extnameL name) = (".jpg".toList) ∨
      toLowerL (extnameL name) = (".jpeg".toList) ∨
      toLowerL (extnameL name) = (".webp".toList) ∨
      toLowerL (extnameL name) = (".gif".toList)) →
      safeExt name = (".jpg".toList)) := by
  refine ⟨rfl, tsOf_length hc, tsOf_all_digit c, natDigits_length_four h1 h2,
    natDigits_all_digit rand, ?_, ?_⟩
  · intro h
    show (if toLowerL (extnameL name) = (".png".toList) ∨
        toLowerL (extnameL name) = (".jpg".toList) ∨
        toLowerL (extnameL name) = (".jpeg".toList) ∨
        toLowerL (extnameL name) = (".webp".toList) ∨
        toLowerL (extnameL name) = (".gif".toList) then toLowerL (extnameL name)
      else (".jpg".toList)) = toLowerL (extnameL name)
    rw [if_pos h]
  · intro h
    show (if toLowerL (extnameL name) = (".png".toList) ∨
        toLowerL (extnameL name) = (".jpg".toList) ∨
        toLowerL (extnameL name) = (".jpeg".toList) ∨
        toLowerL (extnameL name) = (".webp".toList) ∨
        toLowerL (extnameL name) = (".gif".toList) then toLowerL (extnameL name)
      else (".jpg".toList)) = (".jpg".toList)
    rw [if_neg h]

theorem C8_witness :
    genMoodFilename ("photo.png".toList) ⟨2026, 1, 5, 3, 4, 5, 123⟩ 1234 =
      ("mood_".toList) ++ tsOf ⟨2026, 1, 5, 3, 4, 5, 123⟩ ++ '_' :: natDigits 1234 ++
        safeExt ("photo.png".toList) :=
  (C8_upload_filename_shape ("photo.png".toList) ⟨2026, 1, 5, 3, 4, 5, 123⟩ 1234
    (by decide) (by decide) (by decide)).1

/-- C9: POST /api/upload-mood answers 200 with `{ok: true, files: [...]}`
listing, in order, one `{filename, url}` record per saved file with
`url = "/uploads/" ++ filename`; with no files the list is empty and the
request still succeeds; and the handler never touches the stored board
document (every write goes to the upload directory, whose joined paths
differ from the data file). -/
theorem C9_upload_mood_response (base : FsPath) (fs : Fs) (files : List UploadFile) :
    (uploadMood base fs files).1.status = 200 ∧
    (uploadMood base fs files).1.body = Json.obj [(("ok".toList), Json.bool true),
      (("files".toList), Json.arr ((files.map (fun f =>
        genMoodFilename f.originalname f.clock f.rand)).map (fun n =>
        Json.obj [(("filename".toList), Json.str n),
                  (("url".toList), Json.str (("/uploads/".toList) ++ n))])))] ∧
    fsLookup (uploadMood base fs files).2 (dataFile base) = fsLookup fs (dataFile base) := by
  refine ⟨rfl, ?_, ?_⟩
  · show Json.obj [(("ok".toList), Json.bool true),
      (("files".toList), Json.arr ((multerSave base fs files).2.map (fun n =>
        Json.obj [(("filename".toList), Json.str n),
                  (("url".toList), Json.str (("/uploads/".toList) ++ n))])))] = _
    rw [multerSave_names]
  · show fsLookup (multerSave base fs files).1 (dataFile base) = _
    exact multerSave_data_frame base files fs

/-- C10: read() does no schema validation — any truthy parsed value of
any shape is returned verbatim by GET /api/board, while a file parsing to
a falsy JSON value is replaced by the default document. -/
theorem C10_read_no_validation (base : FsPath) (fs : Fs) (now raw : List Char) (v : Json)
    (hstore : fsLookup fs (dataFile base) = some raw)
    (hne : jsTrim raw ≠ [])
    (hparse : parseJson (jsTrim raw) = some v) :
    (jsTruthy v = true → (getBoard base fs now).body = v) ∧
    (jsTruthy v = false → (getBoard base fs now).body = defaultBoard now) := by
  have hr : readBoardFs base fs = v := by
    unfold readBoardFs
    rw [hstore]
    show (if jsTrim raw = [] then Json.null
      else match parseJson (jsTrim raw) with
        | some v2 => v2
        | none => Json.null) = v
    rw [if_neg hne, hparse]
  constructor
  · intro ht
    show (if jsTruthy (readBoardFs base fs) then readBoardFs base fs
      else defaultBoard now) = v
    rw [hr, ht, if_pos rfl]
  · intro ht
    show (if jsTruthy (readBoardFs base fs) then readBoardFs base fs
      else defaultBoard now) = defaultBoard now
    rw [hr, ht]
    rfl

theorem C10_witness :
    (getBoard [] [(dataFile [], ("5".toList))] ("N".toList)).body = Json.num 5 :=
  (C10_read_no_validation [] [(dataFile [], ("5".toList))] ("N".toList) ("5".toList)
    (Json.num 5) rfl (by decide) rfl).1 rfl
